import Mathlib

/-!
Verification development for the 5G CQI statistical analysis engine
(`cqi_streamlit_对比版zte.py`).  The analysis methods of class `CQI分析器`
are embedded shallowly: a cleaned row of the tabular dataset becomes a
`Record` (the seven required columns are non-null after `清洗数据`, hence
plain `ℚ`; optional columns are `Option ℚ`, `none` standing for pandas
`NaN`), float values that can be `NaN`/`±inf` are modelled by `FVal`, and
each per-group analysis method becomes a function of the group's rows.
`scipy.stats.pearsonr` is an external library call; it is abstracted as a
parameter of type `Pearson`, where `none` models the raised-exception
case that the source catches.  Python runtime errors (`TypeError` from
comparing `None` with a float, pandas `ValueError`) are modelled with
`Except PyErr`.
-/

/-- IEEE-style float value: a finite rational, `NaN`, `+inf` or `-inf`.
Used wherever the pandas code can produce non-finite values
(division by zero, `diff`/`pct_change` leading entries, means of empty
groups). -/
inductive FVal where
  | nan : FVal
  | fin : ℚ → FVal
  | pinf : FVal
  | ninf : FVal
deriving DecidableEq, Repr

/-- IEEE subtraction on `FVal`. -/
def fsub : FVal → FVal → FVal
  | .nan, _ => .nan
  | _, .nan => .nan
  | .fin a, .fin b => .fin (a - b)
  | .fin _, .pinf => .ninf
  | .fin _, .ninf => .pinf
  | .pinf, .fin _ => .pinf
  | .ninf, .fin _ => .ninf
  | .pinf, .pinf => .nan
  | .pinf, .ninf => .pinf
  | .ninf, .pinf => .ninf
  | .ninf, .ninf => .nan

/-- IEEE division on `FVal` (numpy semantics: `x/0` is `±inf` for `x ≠ 0`
and `NaN` for `x = 0`; the sign of zero is not modelled since the source
only divides by values produced as data or means). -/
def fdiv : FVal → FVal → FVal
  | .nan, _ => .nan
  | _, .nan => .nan
  | .fin a, .fin b =>
      if b = 0 then (if a = 0 then .nan else if 0 < a then .pinf else .ninf)
      else .fin (a / b)
  | .fin _, .pinf => .fin 0
  | .fin _, .ninf => .fin 0
  | .pinf, .fin b => if 0 ≤ b then .pinf else .ninf
  | .ninf, .fin b => if 0 ≤ b then .ninf else .pinf
  | .pinf, .pinf => .nan
  | .pinf, .ninf => .nan
  | .ninf, .pinf => .nan
  | .ninf, .ninf => .nan

/-- IEEE multiplication on `FVal`. -/
def fmul : FVal → FVal → FVal
  | .nan, _ => .nan
  | _, .nan => .nan
  | .fin a, .fin b => .fin (a * b)
  | .fin a, .pinf => if a = 0 then .nan else if 0 < a then .pinf else .ninf
  | .fin a, .ninf => if a = 0 then .nan else if 0 < a then .ninf else .pinf
  | .pinf, .fin b => if b = 0 then .nan else if 0 < b then .pinf else .ninf
  | .ninf, .fin b => if b = 0 then .nan else if 0 < b then .ninf else .pinf
  | .pinf, .pinf => .pinf
  | .pinf, .ninf => .ninf
  | .ninf, .pinf => .ninf
  | .ninf, .ninf => .pinf

/-- `x > c` for a float value against a finite constant; `NaN`
compares false, as in Python/numpy. -/
def fgtQ : FVal → ℚ → Bool
  | .fin a, c => decide (c < a)
  | .pinf, _ => true
  | _, _ => false

/-- `x < c` for a float value against a finite constant; `NaN`
compares false. -/
def fltQ : FVal → ℚ → Bool
  | .fin a, c => decide (a < c)
  | .ninf, _ => true
  | _, _ => false

/-- Strict order on non-`NaN` float values (`-inf < finite < +inf`),
used by `idxmaxF`. -/
def fMaxLt : FVal → FVal → Bool
  | .fin a, .fin b => decide (a < b)
  | .ninf, .fin _ => true
  | .ninf, .pinf => true
  | .fin _, .pinf => true
  | _, _ => false

/-- Round half to even (numpy/pandas `round` tie-breaking), as an
integer result. -/
def roundHalfEven (x : ℚ) : ℤ :=
  let f := ⌊x⌋
  let r := x - (f : ℚ)
  if r < 1/2 then f else if 1/2 < r then f + 1 else if f % 2 = 0 then f else f + 1

/-- pandas `Series.round(2)` on a float value. -/
def fround2 : FVal → FVal
  | .fin q => .fin ((roundHalfEven (q * 100) : ℚ) / 100)
  | x => x

/-- Mean of a list of rationals as a float value: pandas gives `NaN` for
an empty group. -/
def fmean (l : List ℚ) : FVal :=
  if l.length = 0 then .nan else .fin (l.sum / (l.length : ℚ))

/-- Mean of a nonempty list of rationals (used only where the source
guarantees a nonempty selection). -/
def meanQ (l : List ℚ) : ℚ := l.sum / (l.length : ℚ)

/-- pandas `Series.diff()`: first entry `NaN`, then successive
differences. -/
def diffF : List FVal → List FVal
  | [] => []
  | x :: xs => .nan :: List.zipWith fsub xs (x :: xs)

/-- pandas `Series.pct_change() * 100`: first entry `NaN`, then
`(cur - prev) / prev * 100`. -/
def pctChange100 : List FVal → List FVal
  | [] => []
  | x :: xs =>
      .nan :: List.zipWith (fun cur prev => fmul (fdiv (fsub cur prev) prev) (.fin 100)) xs (x :: xs)

/-- pandas `Series.idxmax()`: index of the first occurrence of the
maximum, skipping `NaN`; `none` when every entry is `NaN` — there real
pandas does not produce an index: pandas 2.x raises `ValueError` from
`idxmax` itself, pandas 1.x returns `NaN` and the following
`区间统计.loc[拐点索引]` raises `KeyError`.  The caller below maps the
`none` case to an (uncaught) error accordingly. -/
def idxmaxCore : ℕ → Option (ℕ × FVal) → List FVal → Option (ℕ × FVal)
  | _, best, [] => best
  | i, best, v :: rest =>
    match v with
    | .nan => idxmaxCore (i + 1) best rest
    | v =>
      match best with
      | none => idxmaxCore (i + 1) (some (i, v)) rest
      | some bv =>
          idxmaxCore (i + 1) (some (if fMaxLt bv.2 v then (i, v) else bv)) rest

/-- pandas `Series.idxmax()` continued: the index of the first
occurrence of the maximum. -/
def idxmaxF (l : List FVal) : Option ℕ := (idxmaxCore 0 none l).map Prod.fst

/-- A cleaned dataset row.  The seven key columns (`关键列` in
`清洗数据`) are non-null after cleaning, hence plain `ℚ`; the optional
columns may still hold `NaN`, hence `Option ℚ`.  Column names are
transliterated: `下行速率` = `下行用户平均速率(MBPS)`, `覆盖电平` =
`小区MR覆盖平均电平`, `干扰电平` = `小区上行平均干扰电平`,
`重叠覆盖` = `重叠覆盖采样点比例(%)`, etc. -/
structure Record where
  «CQI优良率» : ℚ
  «下行速率» : ℚ
  «上行速率» : ℚ
  «覆盖电平» : ℚ
  SINR : ℚ
  TA : ℚ
  «干扰电平» : ℚ
  «上行PRB» : Option ℚ := none
  «下行PRB» : Option ℚ := none
  «覆盖系数» : Option ℚ := none
  «重叠覆盖» : Option ℚ := none
deriving DecidableEq, Repr

instance : Inhabited Record := ⟨⟨0, 0, 0, 0, 0, 0, 0, none, none, none, none⟩⟩

/-- One per-standard group of the cleaned dataset, together with the
dataset-level presence of the optional columns (`指标 in 数据.columns`
in the source). -/
structure Dataset where
  rows : List Record
  «has上行PRB» : Bool := false
  «has下行PRB» : Bool := false
  «has覆盖系数» : Bool := false
  «has重叠覆盖» : Bool := false
deriving DecidableEq, Repr

/-- The column names appearing in the correlation analyses. -/
inductive «字段» where
  | «CQI优良率» | «下行速率» | «上行速率» | «覆盖电平» | SINR | TA | «干扰电平»
  | «上行PRB» | «下行PRB» | «覆盖系数» | «重叠覆盖»
deriving DecidableEq, Repr

/-- Reading a column of a row; `none` is pandas `NaN`. -/
def «字段».get : «字段» → Record → Option ℚ
  | .«CQI优良率», r => some r.«CQI优良率»
  | .«下行速率», r => some r.«下行速率»
  | .«上行速率», r => some r.«上行速率»
  | .«覆盖电平», r => some r.«覆盖电平»
  | .SINR, r => some r.SINR
  | .TA, r => some r.TA
  | .«干扰电平», r => some r.«干扰电平»
  | .«上行PRB», r => r.«上行PRB»
  | .«下行PRB», r => r.«下行PRB»
  | .«覆盖系数», r => r.«覆盖系数»
  | .«重叠覆盖», r => r.«重叠覆盖»

/-- `字段 in 数据.columns`: the seven key columns always exist after
cleaning; the optional ones exist according to the dataset flags. -/
def Dataset.«列存在» (ds : Dataset) : «字段» → Bool
  | .«上行PRB» => ds.«has上行PRB»
  | .«下行PRB» => ds.«has下行PRB»
  | .«覆盖系数» => ds.«has覆盖系数»
  | .«重叠覆盖» => ds.«has重叠覆盖»
  | _ => true

/-- `数据子集[[字段1, 字段2]].dropna()`: the rows where both columns are
non-null, as value pairs. -/
def «有效配对» (f1 f2 : «字段») (rows : List Record) : List (ℚ × ℚ) :=
  rows.filterMap (fun r =>
    match f1.get r, f2.get r with
    | some a, some b => some (a, b)
    | _, _ => none)

/-- Abstraction of `scipy.stats.pearsonr` over the valid pairs: `some
(r, p)` is a normal return, `none` models the raised-exception case
caught by the source's `try/except`. -/
def Pearson : Type := List (ℚ × ℚ) → Option (ℚ × ℚ)

/-- `计算相关性_按制式` (source lines 187–202): drop rows with `NaN` in
either column; with fewer than 3 valid rows, or when `pearsonr` raises,
return `{"相关系数": None, "P值": None}`. -/
def «计算相关性» (pearson : Pearson) (f1 f2 : «字段») (rows : List Record) :
    Option ℚ × Option ℚ :=
  if («有效配对» f1 f2 rows).length < 3 then (none, none)
  else
    match pearson («有效配对» f1 f2 rows) with
    | some rp => (some rp.1, some rp.2)
    | none => (none, none)

/-- `判断相关性强度` (source lines 175–185). -/
def «判断相关性强度» («相关系数» : ℚ) : String :=
  if «相关系数» < 1/10 then "极弱"
  else if «相关系数» < 3/10 then "弱"
  else if «相关系数» < 1/2 then "中等"
  else if «相关系数» < 7/10 then "强"
  else "极强"

/-- Python runtime errors reachable in the analysis methods:
`TypeError` from comparing `None` with a float, `ValueError` from
pandas `qcut`. -/
inductive PyErr where
  | typeError : PyErr
  | valueError : PyErr
deriving DecidableEq, Repr

/-- Python `x < c` where `x` may be `None`: comparing `None` with a
float raises `TypeError`. -/
def pyLt (x : Option ℚ) (c : ℚ) : Except PyErr Bool :=
  match x with
  | none => .error .typeError
  | some q => .ok (decide (q < c))

/-- Python `abs(x)` where `x` may be `None`: `abs(None)` raises
`TypeError`. -/
def pyAbs (x : Option ℚ) : Except PyErr ℚ :=
  match x with
  | none => .error .typeError
  | some q => .ok |q|

/-- Python's stable `sort`/`sorted` with a rational key, descending
(`reverse=True`): modelled as sorting the index-decorated list by the
strict lexicographic order (key descending, original index ascending),
which is exactly the specification of a stable descending sort. -/
def descLe {α : Type} (key : α → ℚ) (a b : ℕ × α) : Bool :=
  decide (key b.2 < key a.2) || (decide (key a.2 = key b.2) && decide (a.1 ≤ b.1))

def pySortDescBy {α : Type} (key : α → ℚ) (l : List α) : List α :=
  (l.enum.mergeSort (descLe key)).map Prod.snd

/-- Square root of a natural number when it is a perfect square
(linear search; only ever evaluated at small concrete inputs). -/
def natSqrtExact (n : ℕ) : Option ℕ :=
  (List.range (n + 1)).find? (fun s => s * s == n)

/-- Exact rational square root: `some s` iff `s ≥ 0` and `s^2 = q`
(for `q` in reduced form, iff numerator and denominator are both
perfect squares). -/
def ratSqrt (q : ℚ) : Option ℚ :=
  if q < 0 then none
  else
    match natSqrtExact q.num.toNat, natSqrtExact q.den with
    | some sn, some sd => some ((sn : ℚ) / (sd : ℚ))
    | _, _ => none

/-- Concrete Pearson instance used only to evaluate the embedding at
specific inputs whose correlation coefficient is exactly rational (the
inputs chosen below all are).  It returns the textbook Pearson `r` over
exact rationals, or `none` when either column has zero variance (where
scipy produces a `NaN` value or raises, and in either case the call
sites below discard the entry) or when `r` is irrational (never the
case at the inputs used).  The p-value is never inspected by any
evaluation in this file — the source either crashes before using it or
discards it — and is reported as `0`. -/
def pearsonQ : Pearson := fun pairs =>
  let n : ℚ := (pairs.length : ℚ)
  let xs := pairs.map Prod.fst
  let ys := pairs.map Prod.snd
  let mx := xs.sum / n
  let my := ys.sum / n
  let sxy := (pairs.map (fun p => (p.1 - mx) * (p.2 - my))).sum
  let sxx := (xs.map (fun x => (x - mx) * (x - mx))).sum
  let syy := (ys.map (fun y => (y - my) * (y - my))).sum
  if sxx * syy = 0 then none
  else
    match ratSqrt (sxx * syy) with
    | some s => if s = 0 then none else some (sxy / s, 0)
    | none => none

/-- pandas sorting of the raw values ascending (used by the quantile
computation). -/
def sortedAsc (l : List ℚ) : List ℚ := l.mergeSort (fun a b => decide (a ≤ b))

/-- numpy linear-interpolation quantile of a sorted nonempty array `a`
at probability `p`: with `h = p * (len - 1)`, the value is
`a[⌊h⌋] + (h - ⌊h⌋) * (a[⌊h⌋+1] - a[⌊h⌋])`. -/
def quantileAt (a : List ℚ) (p : ℚ) : ℚ :=
  let n := a.length
  let h := p * ((n : ℚ) - 1)
  let j : ℕ := (⌊h⌋).toNat
  let aj := a.getD j 0
  let aj1 := a.getD (j + 1) aj
  aj + (h - (j : ℚ)) * (aj1 - aj)

/-- Drop consecutive duplicates (first argument: the previous kept
value).  Applied to the nondecreasing quantile edges this is exactly
`np.unique`, i.e. pandas `qcut(..., duplicates='drop')`. -/
def dedupFrom : ℚ → List ℚ → List ℚ
  | _, [] => []
  | x, y :: ys => if x = y then dedupFrom x ys else y :: dedupFrom y ys

/-- Drop consecutive duplicates of a (sorted) list. -/
def dedupConsecutive : List ℚ → List ℚ
  | [] => []
  | x :: xs => x :: dedupFrom x xs

/-- The deduplicated bin edges of `pd.qcut(vals, q, duplicates='drop')`:
the quantiles of `vals` at `0, 1/q, …, 1`, with duplicate edges dropped. -/
def «分位边界» (vals : List ℚ) (q : ℕ) : List ℚ :=
  dedupConsecutive
    ((List.range (q + 1)).map (fun i => quantileAt (sortedAsc vals) ((i : ℚ) / (q : ℚ))))

/-- Bin assignment of `pd.cut`-style half-open intervals
`(e_i, e_(i+1)]`, with the lowest edge included in bin 0
(`include_lowest` behaviour of `qcut`): the first bin `i` with
`x ≤ e_(i+1)`.  `none` when fewer than two edges exist (pandas assigns
`NaN` everywhere in that case). -/
def findBin (x : ℚ) : List ℚ → Option ℕ
  | [] => none
  | [_] => none
  | _ :: e1 :: rest =>
      if x ≤ e1 then some 0 else (findBin x (e1 :: rest)).map (fun n => n + 1)

/-- The hard-coded band labels of `CQI分位数速率分析_按制式`
(source line 231): `[f"{i*20}-{(i+1)*20}%" for i in range(分位数)]`. -/
def «分位数标签» (q : ℕ) : List String :=
  (List.range q).map (fun i => toString (i * 20) ++ "-" ++ toString ((i + 1) * 20) ++ "%")

/-- The numeric content `(i*20, (i+1)*20)` of each hard-coded band
label of `CQI分位数速率分析_按制式`. -/
def «分位数标签界» (q : ℕ) : List (ℕ × ℕ) :=
  (List.range q).map (fun i => (i * 20, (i + 1) * 20))

/-- Modelled from the spec: the percent range actually covered by the
`i`-th of `q` equal-frequency bands is `[i*(100/q), (i+1)*(100/q)]`. -/
def «实际分位百分比» (q : ℕ) : List (ℚ × ℚ) :=
  (List.range q).map (fun (i : ℕ) => ((i : ℚ) * (100 / (q : ℚ)), ((i : ℚ) + 1) * (100 / (q : ℚ))))

/-- The candidate metrics of `分析影响CQI的指标_按制式` and
`贡献度分析_按制式` (source lines 290–299 and 455–464). -/
def «影响指标列表» : List «字段» :=
  [.«覆盖电平», .SINR, .TA, .«干扰电平», .«上行PRB», .«下行PRB», .«覆盖系数», .«重叠覆盖»]

/-- One output row of `分析影响CQI的指标_按制式`. -/
structure «影响条目» where
  «指标» : «字段»
  «相关系数» : Option ℚ
  «P值» : Option ℚ
  «显著性» : String
  «强度» : String
deriving DecidableEq, Repr

/-- `分析影响CQI的指标_按制式` for one group (source lines 289–311).
After `计算相关性_按制式`, the source evaluates
`相关性['P值'] < 0.05` and then `abs(相关性['相关系数'])` without a
`None` check — in Python both raise `TypeError` when the correlation
was undefined.  The final `sorted(..., key=lambda x: abs(x["相关系数"]),
reverse=True)` is Python's stable descending sort; entries reaching it
always carry a defined coefficient (an undefined one raises earlier),
so the key is modelled total via `getD 0`. -/
def «分析影响CQI的指标» (pearson : Pearson) (ds : Dataset) :
    Except PyErr (List «影响条目») := do
  let entries ← («影响指标列表».filter ds.«列存在»).mapM (fun f => do
    let c := «计算相关性» pearson .«CQI优良率» f ds.rows
    let sig ← pyLt c.2 (5/100)
    let a ← pyAbs c.1
    pure (⟨f, c.1, c.2, if sig then "显著" else "不显著", «判断相关性强度» a⟩ : «影响条目»))
  pure (pySortDescBy (fun e => |e.«相关系数».getD 0|) entries)

/-- One output record of `分析CQI对速率影响_按制式`. -/
structure «速率条目» where
  «速率列» : «字段»
  «相关系数» : Option ℚ
  «P值» : Option ℚ
  «显著性» : String
  «强度» : String
deriving DecidableEq, Repr

/-- `分析CQI对速率影响_按制式` for one group (source lines 204–214):
the same unguarded `相关性['P值'] < 0.05` and `abs(相关性['相关系数'])`
follow `计算相关性_按制式`. -/
def «分析CQI对速率影响» (pearson : Pearson) (rows : List Record) :
    Except PyErr (List «速率条目») :=
  [«字段».«下行速率», .«上行速率»].mapM (fun f => do
    let c := «计算相关性» pearson .«CQI优良率» f rows
    let sig ← pyLt c.2 (5/100)
    let a ← pyAbs c.1
    pure (⟨f, c.1, c.2, if sig then "显著" else "不显著", «判断相关性强度» a⟩ : «速率条目»))

/-- One entry of `贡献度分析_按制式`'s ranked list. -/
structure «贡献条目» where
  «指标» : «字段»
  «相关系数» : Option ℚ
  «贡献度» : ℚ
  «累积贡献度» : ℚ := 0
deriving DecidableEq, Repr

/-- `贡献度分析_按制式`, first loop (source lines 468–496): one entry
per present candidate metric; fewer than 3 valid pairs, or a raising
`pearsonr`, give coefficient `None` and contribution `0`, otherwise the
contribution is `|r| * 100`. -/
def «贡献度原始列表» (pearson : Pearson) (ds : Dataset) : List «贡献条目» :=
  («影响指标列表».filter ds.«列存在»).map (fun f =>
    let v := «有效配对» f .«CQI优良率» ds.rows
    if v.length < 3 then ⟨f, none, 0, 0⟩
    else
      match pearson v with
      | some rp => ⟨f, some rp.1, |rp.1| * 100, 0⟩
      | none => ⟨f, none, 0, 0⟩)

/-- `贡献度分析_按制式` line 499: keep the entries with contribution
`> 0`. -/
def «贡献度过滤列表» (pearson : Pearson) (ds : Dataset) : List «贡献条目» :=
  («贡献度原始列表» pearson ds).filter (fun x => decide (0 < x.«贡献度»))

/-- `贡献度分析_按制式` line 500: stable descending sort by
contribution. -/
def «贡献度排序列表» (pearson : Pearson) (ds : Dataset) : List «贡献条目» :=
  pySortDescBy (fun x => x.«贡献度») («贡献度过滤列表» pearson ds)

/-- `贡献度分析_按制式` lines 503–506: running cumulative percentage
`累积贡献度 / 总贡献度 * 100` (or `0` when the total is not positive). -/
def «累积标注» (total : ℚ) : ℚ → List «贡献条目» → List «贡献条目»
  | _, [] => []
  | acc, x :: xs =>
      let acc2 := acc + x.«贡献度»
      { x with «累积贡献度» := if 0 < total then acc2 / total * 100 else 0 } ::
        «累积标注» total acc2 xs

/-- `贡献度分析_按制式` for one group (source lines 453–508): the
filtered, sorted, cumulative-annotated list together with
`总贡献度` (the sum of the kept contributions). -/
def «贡献度分析» (pearson : Pearson) (ds : Dataset) : List «贡献条目» × ℚ :=
  let sorted := «贡献度排序列表» pearson ds
  let total := (sorted.map (fun x => x.«贡献度»)).sum
  («累积标注» total 0 sorted, total)

/-- One band row of `CQI分位数速率分析_按制式`'s `分位数统计` table. -/
structure «分位数行» where
  «标签» : String
  «CQI均值» : FVal
  «下行均值» : FVal
  «上行均值» : FVal
  «样本数» : ℕ
deriving DecidableEq, Repr

instance : Inhabited «分位数行» := ⟨⟨"", .nan, .nan, .nan, 0⟩⟩

/-- Result of `CQI分位数速率分析_按制式` for one group: the band table
plus the two uplift columns `下行提升率(%)`/`上行提升率(%)` (empty when
the source skips them because at most one band exists). -/
structure «分位数结果» where
  «行» : List «分位数行»
  «下行提升率» : List FVal
  «上行提升率» : List FVal
deriving DecidableEq, Repr

/-- `CQI分位数速率分析_按制式` for one group (source lines 216–253).
The three selected columns are key columns, non-null after cleaning, so
the `dropna` keeps every row.  Fewer than 10 rows: the group is skipped
(`none`).  `pd.qcut(..., labels=[...], duplicates='drop')` raises
`ValueError` when the label count differs from the (possibly reduced)
bin count.  Per band: means and sample count, then the percentage
uplift columns relative to the first band (pandas float arithmetic,
`FVal`), rounded to two decimals.  pandas groups on the qcut categories
in bin order. -/
def «CQI分位数速率分析» (q : ℕ) (rows : List Record) :
    Except PyErr (Option «分位数结果») :=
  if rows.length < 10 then .ok none
  else
    let edges := «分位边界» (rows.map (fun r => r.«CQI优良率»)) q
    let labels := «分位数标签» q
    if labels.length ≠ edges.length - 1 then .error .valueError
    else
      let group := fun i => rows.filter (fun r => findBin r.«CQI优良率» edges = some i)
      let stats := (List.range (edges.length - 1)).map (fun i =>
        (⟨labels.getD i "", fmean ((group i).map (fun r => r.«CQI优良率»)),
          fmean ((group i).map (fun r => r.«下行速率»)),
          fmean ((group i).map (fun r => r.«上行速率»)), (group i).length⟩ : «分位数行»))
      if 1 < stats.length then
        let baseD := (stats.headD default).«下行均值»
        let baseU := (stats.headD default).«上行均值»
        .ok (some ⟨stats,
          stats.map (fun b => fround2 (fmul (fdiv (fsub b.«下行均值» baseD) baseD) (.fin 100))),
          stats.map (fun b => fround2 (fmul (fdiv (fsub b.«上行均值» baseU) baseU) (.fin 100)))⟩)
      else .ok (some ⟨stats, [], []⟩)

/-- One row of `按CQI分组分析_按制式`'s aggregation (the `std` columns
are omitted from the model: a sample standard deviation is generally
irrational, and no claim concerns it; the optional columns are likewise
omitted). -/
structure «分组统计行» where
  «组标签» : String
  «样本数» : ℕ
  «下行均值» : FVal
  «上行均值» : FVal
  «电平均值» : FVal
  «SINR均值» : FVal
  «TA均值» : FVal
  «干扰均值» : FVal
deriving DecidableEq, Repr

/-- The group labels `[f'第{i+1}组' for i in range(分组数)]` of
`按CQI分组分析_按制式` (source line 515). -/
def «分组标签列表» (n : ℕ) : List String :=
  (List.range n).map (fun i => "第" ++ toString (i + 1) ++ "组")

/-- `按CQI分组分析_按制式` for one group (source lines 510–532): no
row-count guard; `pd.qcut(..., labels=分组标签, duplicates='drop')`
raises `ValueError` when the label count differs from the reduced bin
count; otherwise per-bin count and means. -/
def «按CQI分组分析» (n : ℕ) (rows : List Record) :
    Except PyErr (List «分组统计行») :=
  let edges := «分位边界» (rows.map (fun r => r.«CQI优良率»)) n
  let labels := «分组标签列表» n
  if labels.length ≠ edges.length - 1 then .error .valueError
  else
    .ok ((List.range (edges.length - 1)).map (fun i =>
      let g := rows.filter (fun r => findBin r.«CQI优良率» edges = some i)
      ⟨labels.getD i "", g.length, fmean (g.map (fun r => r.«下行速率»)),
        fmean (g.map (fun r => r.«上行速率»)), fmean (g.map (fun r => r.«覆盖电平»)),
        fmean (g.map (fun r => r.SINR)), fmean (g.map (fun r => r.TA)),
        fmean (g.map (fun r => r.«干扰电平»))⟩))

/-- Minimum of a list as a float value (`NaN` when empty). -/
def fminL (l : List ℚ) : FVal :=
  match l with
  | [] => .nan
  | x :: xs => .fin (xs.foldl min x)

/-- Maximum of a list as a float value (`NaN` when empty). -/
def fmaxL (l : List ℚ) : FVal :=
  match l with
  | [] => .nan
  | x :: xs => .fin (xs.foldl max x)

/-- One row of `CQI速率拐点分析_按制式`'s `区间统计` table (the
`速率标准差` column is omitted: a sample standard deviation is
generally irrational and no claim concerns it). -/
structure «区间行» where
  «CQI均值» : FVal
  «CQI最小值» : FVal
  «CQI最大值» : FVal
  «样本数» : ℕ
  «平均速率» : FVal
  «平均覆盖电平» : FVal
  «平均SINR» : FVal
deriving DecidableEq, Repr

/-- Result of `CQI速率拐点分析_按制式` for one group.  The derived
DataFrame columns `速率增长(Mbps)`, `速率增长率(%)` and `斜率变化` are
carried as side lists aligned with `区间统计`; `斜率变化` is `none`
when at most two bands exist (the source does not create the column
then).  `拐点` is the index of the flagged band (`是否拐点`);
`显著提升点`/`平稳点` are the row subsets as index lists. -/
structure «拐点结果» where
  «区间统计» : List «区间行»
  «速率增长» : List FVal
  «速率增长率» : List FVal
  «斜率变化» : Option (List FVal)
  «拐点» : Option ℕ
  «显著提升点» : List ℕ
  «平稳点» : List ℕ
deriving DecidableEq, Repr

instance : Inhabited «拐点结果» := ⟨⟨[], [], [], none, none, [], []⟩⟩

/-- The `区间统计` band table of `CQI速率拐点分析_按制式` (source
lines 408–417): `pd.qcut` without labels (reduced bin counts do not
raise; empty bands remain as rows with `NaN` means, since `groupby` on
a categorical keeps unused categories), then per-band aggregation. -/
def «拐点区间统计» (n : ℕ) (rows : List Record) : List «区间行» :=
  let edges := «分位边界» (rows.map (fun r => r.«CQI优良率»)) n
  let group := fun i => rows.filter (fun r => findBin r.«CQI优良率» edges = some i)
  (List.range (edges.length - 1)).map (fun i =>
    (⟨fmean ((group i).map (fun r => r.«CQI优良率»)),
      fminL ((group i).map (fun r => r.«CQI优良率»)),
      fmaxL ((group i).map (fun r => r.«CQI优良率»)),
      (group i).length,
      fmean ((group i).map (fun r => r.«下行速率»)),
      fmean ((group i).map (fun r => r.«覆盖电平»)),
      fmean ((group i).map (fun r => r.SINR))⟩ : «区间行»))

/-- `CQI速率拐点分析_按制式` for one group (source lines 383–451).
Groups with fewer than `分段数 * 5` rows are skipped (`.ok none`).
The `try/except` wraps only the `qcut` (lines 402–405), which without
labels does not raise.  The inflection band is `idxmax` of the second
difference, only computed when more than two bands exist; when every
second difference is `NaN` (reachable when deduplicated quantile edges
leave an empty interior band), `idxmax`/`.loc` raises uncaught —
modelled as `.error .valueError` (`ValueError` in pandas 2.x;
`KeyError` from line 429 in 1.x).  `显著提升点` are the rows with
growth rate `> 10`, `平稳点` those with growth rate `< 5` (`NaN`
comparisons are false). -/
def «CQI速率拐点分析» (n : ℕ) (rows : List Record) :
    Except PyErr (Option «拐点结果») :=
  if rows.length < n * 5 then .ok none
  else
    let stats := «拐点区间统计» n rows
    let means := stats.map (fun b => b.«平均速率»)
    let growth := diffF means
    let rate := pctChange100 means
    let uplift := (List.range stats.length).filter (fun i => fgtQ (rate.getD i .nan) 10)
    let plateau := (List.range stats.length).filter (fun i => fltQ (rate.getD i .nan) 5)
    if 2 < stats.length then
      let slope := diffF growth
      match idxmaxF slope with
      | none => .error .valueError
      | some k => .ok (some ⟨stats, growth, rate, some slope, some k, uplift, plateau⟩)
    else
      .ok (some ⟨stats, growth, rate, none, none, uplift, plateau⟩)

/-- `v > bound` against a possibly infinite quadrant bound. -/
def fgtB (v : ℚ) : FVal → Bool
  | .fin b => decide (b < v)
  | .ninf => true
  | .pinf => false
  | .nan => false

/-- `v ≤ bound` against a possibly infinite quadrant bound. -/
def fleB (v : ℚ) : FVal → Bool
  | .fin b => decide (v ≤ b)
  | .pinf => true
  | .ninf => false
  | .nan => false

/-- `v > bound` for a possibly-null column value (`NaN > x` is false). -/
def ogtB (v : Option ℚ) (bound : FVal) : Bool :=
  match v with
  | none => false
  | some x => fgtB x bound

/-- `v ≤ bound` for a possibly-null column value (`NaN ≤ x` is false). -/
def oleB (v : Option ℚ) (bound : FVal) : Bool :=
  match v with
  | none => false
  | some x => fleB x bound

/-- `v > c` for a possibly-null column value against a scalar. -/
def ogtQ (v : Option ℚ) (c : ℚ) : Bool :=
  match v with
  | none => false
  | some x => decide (c < x)

/-- `v ≥ c` for a possibly-null column value against a scalar. -/
def ogeQ (v : Option ℚ) (c : ℚ) : Bool :=
  match v with
  | none => false
  | some x => decide (c ≤ x)

/-- Mean of a possibly-null column (pandas skips `NaN`; all-null gives
`NaN`). -/
def omean (l : List (Option ℚ)) : FVal := fmean (l.filterMap id)

/-- The shared shape of both quadrant analyses: for each quadrant
definition, filter the group's rows, and append an output row exactly
when the quadrant is nonempty (`if len(象限数据) > 0`). -/
def «象限归并» {β γ : Type} (rows : List Record) (defs : List β)
    (pred : β → Record → Bool) (mk : β → List Record → γ) : List γ :=
  defs.filterMap (fun q =>
    let d := rows.filter (pred q)
    if d.length = 0 then none else some (mk q d))

/-- One output row of `四象限分析_按制式`. -/
structure «象限行» where
  «象限» : String
  «样本数» : ℕ
  «占比» : ℚ
  «平均CQI» : ℚ
  «平均下行速率» : ℚ
  «平均覆盖电平» : ℚ
  «平均SINR» : ℚ
deriving DecidableEq, Repr

/-- `四象限分析_按制式` for one group (source lines 547–585): the four
quadrants of coverage level × SINR with half-open `(lower, upper]`
bounds and infinite extremes: the quadrant bound tuples
`(象限名, 覆盖下限, 覆盖上限, SINR下限, SINR上限)`. -/
def «四象限定义» (covThr sinrThr : ℚ) : List (String × FVal × FVal × FVal × FVal) :=
  [("象限1: 好覆盖+好SINR", .fin covThr, .pinf, .fin sinrThr, .pinf),
   ("象限2: 差覆盖+好SINR", .ninf, .fin covThr, .fin sinrThr, .pinf),
   ("象限3: 好覆盖+差SINR", .fin covThr, .pinf, .ninf, .fin sinrThr),
   ("象限4: 差覆盖+差SINR", .ninf, .fin covThr, .ninf, .fin sinrThr)]

/-- The membership test of one quadrant of `四象限分析_按制式`:
`(数据[电平] > 下限) & (数据[电平] <= 上限) & (数据[SINR] > 下限) &
(数据[SINR] <= 上限)`. -/
def «四象限谓词» (q : String × FVal × FVal × FVal × FVal) (r : Record) : Bool :=
  fgtB r.«覆盖电平» q.2.1 && fleB r.«覆盖电平» q.2.2.1 &&
    fgtB r.SINR q.2.2.2.1 && fleB r.SINR q.2.2.2.2

def «四象限分析» (covThr sinrThr : ℚ) (rows : List Record) : List «象限行» :=
  «象限归并» rows («四象限定义» covThr sinrThr) «四象限谓词»
    (fun q d =>
      ⟨q.1, d.length, (d.length : ℚ) / (rows.length : ℚ) * 100,
        meanQ (d.map (fun r => r.«CQI优良率»)), meanQ (d.map (fun r => r.«下行速率»)),
        meanQ (d.map (fun r => r.«覆盖电平»)), meanQ (d.map (fun r => r.SINR))⟩)

/-- One output row of `覆盖系数四象限分析_按制式`. -/
structure «系数象限行» where
  «象限» : String
  «样本数» : ℕ
  «占比» : ℚ
  «平均CQI» : ℚ
  «平均下行速率» : ℚ
  «平均覆盖电平» : ℚ
  «平均覆盖系数» : FVal
  «平均SINR» : ℚ
deriving DecidableEq, Repr

/-- The quadrant bound tuples `(象限名, 电平下限, 电平上限, 系数下限,
系数上限)` of `覆盖系数四象限分析_按制式` (source lines 825–830): note
the coverage-factor lower bound of quadrants 1 and 2 is the literal
`0`, not `-inf`. -/
def «系数象限定义» (coefThr levelThr : ℚ) : List (String × FVal × FVal × FVal × FVal) :=
  [("象限1: 好覆盖+合理覆盖距离", .fin levelThr, .pinf, .fin 0, .fin coefThr),
   ("象限2: 差覆盖+合理覆盖距离", .ninf, .fin levelThr, .fin 0, .fin coefThr),
   ("象限3: 好覆盖+过远覆盖距离", .fin levelThr, .pinf, .fin coefThr, .pinf),
   ("象限4: 差覆盖+过远覆盖距离", .ninf, .fin levelThr, .fin coefThr, .pinf)]

/-- The membership test of one quadrant of `覆盖系数四象限分析_按制式`;
the coverage-factor column may be `NaN`, and every comparison with
`NaN` is false. -/
def «系数象限谓词» (q : String × FVal × FVal × FVal × FVal) (r : Record) : Bool :=
  fgtB r.«覆盖电平» q.2.1 && fleB r.«覆盖电平» q.2.2.1 &&
    ogtB r.«覆盖系数» q.2.2.2.1 && oleB r.«覆盖系数» q.2.2.2.2

/-- `覆盖系数四象限分析_按制式` for one group (source lines 814–853):
quadrants of coverage level × coverage factor.  Note the coverage-factor
lower bound of quadrants 1 and 2 is the literal `0`, not `-inf`, and
the coverage-factor column may contain `NaN` (every comparison with
`NaN` is false).  Groups without the column are skipped (`none`). -/
def «覆盖系数四象限分析» (coefThr levelThr : ℚ) (ds : Dataset) :
    Option (List «系数象限行») :=
  if ds.«has覆盖系数» = false then none
  else
    let rows := ds.rows
    some («象限归并» rows («系数象限定义» coefThr levelThr) «系数象限谓词»
      (fun q d =>
        ⟨q.1, d.length, (d.length : ℚ) / (rows.length : ℚ) * 100,
          meanQ (d.map (fun r => r.«CQI优良率»)), meanQ (d.map (fun r => r.«下行速率»)),
          meanQ (d.map (fun r => r.«覆盖电平»)), omean (d.map (fun r => r.«覆盖系数»)),
          meanQ (d.map (fun r => r.SINR))⟩))

/-- One row of the root-cause table. -/
structure «根因条目» where
  «根因类型» : String
  «小区数» : ℕ
  «占比» : ℚ
deriving DecidableEq, Repr

/-- Result of `CQI不达标根因分析_按制式` for one group. -/
structure «根因结果» where
  «根因统计» : List «根因条目»
  «不达标比例» : ℚ
  «不达标小区数» : ℕ
  «总小区数» : ℕ
  «CQI阈值» : ℚ
deriving DecidableEq, Repr

/-- `CQI不达标根因分析_按制式` for one group with its per-group
threshold (source lines 587–653): partition by `CQI优良率 < 阈值`; with
no failing records, an empty table and ratio `0`; otherwise the five
independent rule counts over the failing subset, each as a percentage
of the failing count, plus the overall failure ratio. -/
def «CQI不达标根因分析» (thr : ℚ) (ds : Dataset) : «根因结果» :=
  let rows := ds.rows
  let failing := rows.filter (fun r => decide (r.«CQI优良率» < thr))
  if failing.length = 0 then ⟨[], 0, 0, rows.length, thr⟩
  else
    let n : ℚ := (failing.length : ℚ)
    let c1 := (failing.filter (fun r => decide (r.«覆盖电平» < -95))).length
    let c2 := (failing.filter (fun r => decide (r.SINR < 10))).length
    let c3 := if ds.«has覆盖系数» then
        (failing.filter (fun r => ogtQ r.«覆盖系数» (13/20))).length else 0
    let c4 := (failing.filter (fun r =>
        decide (r.«覆盖电平» < -95) && decide (r.SINR < 10))).length
    let c5 := if ds.«has重叠覆盖» then
        (failing.filter (fun r => ogeQ r.«重叠覆盖» 15)).length else 0
    ⟨[⟨"覆盖问题(电平<-95dBm)", c1, (c1 : ℚ) / n * 100⟩,
      ⟨"干扰问题(SINR<10)", c2, (c2 : ℚ) / n * 100⟩,
      ⟨"越区覆盖(覆盖系数>0.65)", c3, (c3 : ℚ) / n * 100⟩,
      ⟨"覆盖+干扰综合问题", c4, (c4 : ℚ) / n * 100⟩,
      ⟨"重叠覆盖问题(比例≥15%)", c5, (c5 : ℚ) / n * 100⟩],
      (failing.length : ℚ) / (rows.length : ℚ) * 100, failing.length, rows.length, thr⟩

/-- The coverage-factor derivation of `清洗数据` (source lines 157–161):
`覆盖系数 = TA / 站间距` as pandas float division.  `TA` is a key
column (non-null after the preceding `dropna`); the inter-site distance
passes through `pd.to_numeric(..., errors='coerce')`, so a missing or
non-numeric value is `NaN` (`none`). -/
def «派生覆盖系数» (TA : ℚ) (dist : Option ℚ) : FVal :=
  match dist with
  | none => .nan
  | some d => fdiv (.fin TA) (.fin d)

/-- Helper building a record from the seven key columns. -/
def mkR (cqi dl ul lvl sinr ta intf : ℚ) : Record :=
  ⟨cqi, dl, ul, lvl, sinr, ta, intf, none, none, none, none⟩

/-- A two-row group: every correlation pair has only 2 valid rows. -/
def «C2数据» : Dataset :=
  ⟨[mkR 80 10 5 (-80) 20 100 (-110), mkR 85 12 6 (-82) 18 120 (-108)],
    false, false, false, false⟩

/-- A one-row group whose coverage factor is exactly 0. -/
def «C3数据» : Dataset :=
  ⟨[{ mkR 80 10 5 (-80) 20 100 (-110) with «覆盖系数» := some 0 }],
    false, false, true, false⟩

/-- A four-row group where coverage level correlates with CQI good-rate
at exactly `r = 24/25` (centered columns `(3,4,-3,-4)` and
`(4,3,-4,-3)`), while SINR, TA and interference are constant (zero
variance). -/
def «C4数据» : Dataset :=
  ⟨[mkR 54 10 5 (-87) 15 100 (-110), mkR 53 10 5 (-86) 15 100 (-110),
    mkR 46 10 5 (-93) 15 100 (-110), mkR 47 10 5 (-94) 15 100 (-110)],
    false, false, false, false⟩

/-- Ten rows all sharing the same CQI good-rate 50: every 20-percent
quantile edge coincides, so `duplicates='drop'` reduces the bin count
to 0. -/
def «C5行» : List Record := List.replicate 10 (mkR 50 10 5 (-80) 20 100 (-110))

/-- Ten rows with distinct CQI 1..10 whose lowest quantile band (CQI 1
and 2) has downlink mean 0; all other bands have downlink mean 1. -/
def «C6行» : List Record :=
  [mkR 1 0 2 (-80) 20 100 (-110), mkR 2 0 2 (-80) 20 100 (-110),
   mkR 3 1 2 (-80) 20 100 (-110), mkR 4 1 2 (-80) 20 100 (-110),
   mkR 5 1 2 (-80) 20 100 (-110), mkR 6 1 2 (-80) 20 100 (-110),
   mkR 7 1 2 (-80) 20 100 (-110), mkR 8 1 2 (-80) 20 100 (-110),
   mkR 9 1 2 (-80) 20 100 (-110), mkR 10 1 2 (-80) 20 100 (-110)]

/-- Ten rows with distinct CQI 1..10 and downlink rate equal to CQI, so
the lowest band's downlink mean is 3/2 ≠ 0. -/
def «C6良行» : List Record :=
  [mkR 1 1 2 (-80) 20 100 (-110), mkR 2 2 2 (-80) 20 100 (-110),
   mkR 3 3 2 (-80) 20 100 (-110), mkR 4 4 2 (-80) 20 100 (-110),
   mkR 5 5 2 (-80) 20 100 (-110), mkR 6 6 2 (-80) 20 100 (-110),
   mkR 7 7 2 (-80) 20 100 (-110), mkR 8 8 2 (-80) 20 100 (-110),
   mkR 9 9 2 (-80) 20 100 (-110), mkR 10 10 2 (-80) 20 100 (-110)]

/-- The downlink uplift column of a `CQI分位数速率分析` result (empty
when the call errored or skipped the group). -/
def «下行提升率提取» (r : Except PyErr (Option «分位数结果»)) : List FVal :=
  match r with
  | .ok (some t) => t.«下行提升率»
  | _ => []

/-- A one-row group failing a CQI threshold of 85. -/
def «C8数据» : Dataset := ⟨[mkR 50 10 5 (-100) 5 100 (-110)], false, false, false, false⟩

/-- Fifteen rows with distinct CQI 1..15 and per-third downlink means
1, 2 and 10: the growth series is `[NaN, 1, 8]`, the second difference
`[NaN, NaN, 7]`, so the inflection band is index 2. -/
def «C9行» : List Record :=
  [mkR 1 1 2 (-80) 20 100 (-110), mkR 2 1 2 (-80) 20 100 (-110),
   mkR 3 1 2 (-80) 20 100 (-110), mkR 4 1 2 (-80) 20 100 (-110),
   mkR 5 1 2 (-80) 20 100 (-110), mkR 6 2 2 (-80) 20 100 (-110),
   mkR 7 2 2 (-80) 20 100 (-110), mkR 8 2 2 (-80) 20 100 (-110),
   mkR 9 2 2 (-80) 20 100 (-110), mkR 10 2 2 (-80) 20 100 (-110),
   mkR 11 10 2 (-80) 20 100 (-110), mkR 12 10 2 (-80) 20 100 (-110),
   mkR 13 10 2 (-80) 20 100 (-110), mkR 14 10 2 (-80) 20 100 (-110),
   mkR 15 10 2 (-80) 20 100 (-110)]

/-- The inflection table of a successful `CQI速率拐点分析` call. -/
def «拐点结果提取» (r : Except PyErr (Option «拐点结果»)) : «拐点结果» :=
  match r with
  | .ok (some t) => t
  | _ => default

/-- The inflection-analysis table computed from `C9行` with 3 bands. -/
def «C9表» : «拐点结果» := «拐点结果提取» («CQI速率拐点分析» 3 «C9行»)

/-- Fifteen rows whose CQI values are 0, nine 1s and five 10s: with 3
bands the deduplicated quantile edges are [0, 1, 4, 10] and the middle
band (1, 4] is empty, so every growth value and every second difference
is `NaN`. -/
def «C9坏行» : List Record :=
  [mkR 0 1 2 (-80) 20 100 (-110), mkR 1 1 2 (-80) 20 100 (-110),
   mkR 1 1 2 (-80) 20 100 (-110), mkR 1 1 2 (-80) 20 100 (-110),
   mkR 1 1 2 (-80) 20 100 (-110), mkR 1 1 2 (-80) 20 100 (-110),
   mkR 1 1 2 (-80) 20 100 (-110), mkR 1 1 2 (-80) 20 100 (-110),
   mkR 1 1 2 (-80) 20 100 (-110), mkR 1 1 2 (-80) 20 100 (-110),
   mkR 10 1 2 (-80) 20 100 (-110), mkR 10 1 2 (-80) 20 100 (-110),
   mkR 10 1 2 (-80) 20 100 (-110), mkR 10 1 2 (-80) 20 100 (-110),
   mkR 10 1 2 (-80) 20 100 (-110)]

deriving instance DecidableEq for Except

/-- The band table of a successful `CQI分位数速率分析` call (used to
name concrete computed tables). -/
def «分位数结果提取» (r : Except PyErr (Option «分位数结果»)) : «分位数结果» :=
  match r with
  | .ok (some t) => t
  | _ => ⟨[], [], []⟩

/-- The quantile table computed from `C6良行` with 5 bands. -/
def «C6良表» : «分位数结果» := «分位数结果提取» («CQI分位数速率分析» 5 «C6良行»)

/-- C1: for every pair of fields and every group dataset,
`计算相关性_按制式` first drops the rows with a null in either field
(`有效配对`); it returns the undefined result — `None` coefficient and
`None` p-value — exactly when fewer than 3 valid rows remain or the
`pearsonr` call fails (the caught-exception case), and in particular it
never raises and never returns a numeric value in those situations. -/
theorem «相关性样本不足或失败返回未定义» (pearson : Pearson) (f1 f2 : «字段»)
    (rows : List Record) :
    «计算相关性» pearson f1 f2 rows = (none, none) ↔
      («有效配对» f1 f2 rows).length < 3 ∨ pearson («有效配对» f1 f2 rows) = none := by
  unfold «计算相关性»
  by_cases h : («有效配对» f1 f2 rows).length < 3
  · simp [h]
  · cases hp : pearson («有效配对» f1 f2 rows) with
    | none => simp [h, hp]
    | some rp => simp [h, hp]

/-- C2: at a group with only 2 valid rows, `分析影响CQI的指标_按制式`
and `分析CQI对速率影响_按制式` evaluate `相关性['P值'] < 0.05` with
`P值 = None` and raise `TypeError` — for any behaviour of `pearsonr` —
instead of retaining the undefined entries with a null coefficient. -/
theorem «指标排行未定义相关性抛TypeError» (pearson : Pearson) :
    «分析影响CQI的指标» pearson «C2数据» = .error .typeError ∧
    «分析CQI对速率影响» pearson «C2数据».rows = .error .typeError ∧
    «C2数据».rows.length = 2 := by
  exact ⟨rfl, rfl, rfl⟩

set_option maxRecDepth 100000 in
unseal List.merge List.mergeSort Rat.add Rat.mul Rat.inv Rat.sub in
/-- C5: at a group of 10 valid rows that all share the same metric
value, every quantile edge coincides, `duplicates='drop'` reduces the
bin count to 0, and `pd.qcut(..., labels=[...])` raises `ValueError`
(label count ≠ bin count) in both `CQI分位数速率分析_按制式` and
`按CQI分组分析_按制式` — the reduction is not survived. -/
theorem «分位数分段重复边界抛ValueError» :
    «CQI分位数速率分析» 5 «C5行» = .error .valueError ∧
    «按CQI分组分析» 5 «C5行» = .error .valueError ∧
    10 ≤ «C5行».length := by decide

/-- C7 counterexample: a record with TA 5 and inter-site distance 0
gets coverage factor `+inf` — an Infinity value, not the undefined
(`NaN`) result the claim requires for zero distance. -/
theorem «站间距为零得无穷反例» :
    «派生覆盖系数» 5 (some 0) = .pinf ∧ «派生覆盖系数» 5 (some 0) ≠ .nan := by decide

/-- C7 (amended): the derived coverage factor equals TA divided by the
inter-site distance whenever the distance is nonzero, and is undefined
(`NaN`) when the distance is missing; when the distance is zero it is
`+inf` (positive TA) or `-inf` (negative TA), and `NaN` only when TA is
also zero. -/
theorem «覆盖系数派生修正» :
    (∀ TA : ℚ, «派生覆盖系数» TA none = .nan) ∧
    (∀ TA d : ℚ, d ≠ 0 → «派生覆盖系数» TA (some d) = .fin (TA / d)) ∧
    (∀ TA : ℚ, 0 < TA → «派生覆盖系数» TA (some 0) = .pinf) ∧
    (∀ TA : ℚ, TA < 0 → «派生覆盖系数» TA (some 0) = .ninf) ∧
    «派生覆盖系数» 0 (some 0) = .nan := by
  refine ⟨fun TA => rfl, fun TA d hd => ?_, fun TA h => ?_, fun TA h => ?_, by decide⟩
  · simp [«派生覆盖系数», fdiv, hd]
  · simp [«派生覆盖系数», fdiv, h, h.ne']
  · simp [«派生覆盖系数», fdiv, h, h.ne, not_lt.mpr h.le]

/-- C7 witness: a record with TA 5 and inter-site distance 2 gets
coverage factor 5/2, and a record with missing distance gets `NaN`. -/
theorem «覆盖系数派生修正_实例» :
    «派生覆盖系数» 5 (some 2) = .fin (5 / 2) ∧ «派生覆盖系数» 5 none = .nan :=
  ⟨«覆盖系数派生修正».2.1 5 2 (by norm_num), «覆盖系数派生修正».1 5⟩

set_option maxRecDepth 100000 in
unseal List.merge List.mergeSort Rat.add Rat.mul Rat.inv Rat.sub in
/-- C3 counterexample: in `覆盖系数四象限分析_按制式` (default
thresholds 0.7 and −90) a record whose coverage factor is exactly 0
falls into no quadrant — the coverage-factor lower bound of quadrants 1
and 2 is 0, not −inf — so the quadrant counts sum to 0, not to the
group total 1. -/
theorem «系数象限计数反例» :
    ((((«覆盖系数四象限分析» (7/10) (-90) «C3数据»).getD []).map
      (fun x => x.«样本数»)).sum ≠ «C3数据».rows.length) := by decide

set_option maxRecDepth 100000 in
unseal List.merge List.mergeSort Rat.add Rat.mul Rat.inv Rat.sub in
/-- C4 counterexample: at `C4数据` (one candidate metric with
correlation exactly 24/25, the others with zero variance) the ranked
list is nonempty and its per-entry contribution percentages sum to 96,
not 100. -/
theorem «贡献度百分比和反例» :
    ((«贡献度分析» pearsonQ «C4数据»).1.map (fun x => x.«贡献度»)).sum = 96 ∧
    («贡献度分析» pearsonQ «C4数据»).1 ≠ [] ∧ (96 : ℚ) ≠ 100 := by decide

set_option maxRecDepth 100000 in
unseal List.merge List.mergeSort Rat.add Rat.mul Rat.inv Rat.sub in
/-- C6 counterexample: at `C6行` the lowest band's downlink mean is 0
and `CQI分位数速率分析_按制式` propagates the float division: the
uplift column is `[NaN, +inf, +inf, +inf, +inf]`, an Infinity value in
every non-base band rather than an undefined result for all bands. -/
theorem «基准为零提升率传播无穷反例» :
    «下行提升率提取» («CQI分位数速率分析» 5 «C6行») =
      [.nan, .pinf, .pinf, .pinf, .pinf] ∧
    FVal.pinf ∈ «下行提升率提取» («CQI分位数速率分析» 5 «C6行») := by decide

set_option maxRecDepth 100000 in
unseal Rat.add Rat.mul Rat.inv Rat.sub in
/-- C10: the band labels of `CQI分位数速率分析_按制式` are generated as
the hard-coded 20-percent steps `i*20`–`(i+1)*20` regardless of the
requested band count `q`, and these numeric ranges agree with the
actual equal-frequency quantile percent ranges `i*(100/q)`–
`(i+1)*(100/q)` exactly when `q = 5` — for any other positive band
count the labels do not describe the bands' quantile ranges. -/
theorem «分位数标签固定20步长» :
    (∀ q : ℕ, «分位数标签» q =
      («分位数标签界» q).map (fun p => toString p.1 ++ "-" ++ toString p.2 ++ "%")) ∧
    (∀ q : ℕ, 1 ≤ q →
      ((«分位数标签界» q).map (fun p => ((p.1 : ℚ), (p.2 : ℚ))) = «实际分位百分比» q ↔
        q = 5)) := by
  constructor
  · intro q
    simp [«分位数标签», «分位数标签界», List.map_map]
  · intro q hq
    constructor
    · intro h
      rw [«分位数标签界», «实际分位百分比», List.map_map] at h
      have h0 := List.map_inj_left.mp h 0 (List.mem_range.mpr (by omega))
      simp only [Function.comp_apply, Prod.mk.injEq] at h0
      have hq0 : (q : ℚ) ≠ 0 := Nat.cast_ne_zero.mpr (by omega)
      have h20 : (20 : ℚ) = 100 / (q : ℚ) := by
        have h2 := h0.2
        push_cast at h2
        linarith
      have h5 : (q : ℚ) = 5 := by
        field_simp at h20
        linarith
      exact_mod_cast h5
    · rintro rfl
      decide

/-- C10 witness: at band count 3 the labels are the 20-percent strings
while the actual band width is 100/3 percent, so they disagree. -/
theorem «分位数标签固定20步长_实例» :
    «分位数标签» 3 = ["0-20%", "20-40%", "40-60%"] ∧
    ¬ ((«分位数标签界» 3).map (fun p => ((p.1 : ℚ), (p.2 : ℚ))) = «实际分位百分比» 3) := by
  constructor
  · rw [«分位数标签固定20步长».1 3]
    rfl
  · intro h
    have h5 := («分位数标签固定20步长».2 3 (by norm_num)).mp h
    exact absurd h5 (by norm_num)

theorem pctBounds (c n : ℕ) (hn : n ≠ 0) (hc : c ≤ n) :
    (0 : ℚ) ≤ (c : ℚ) / (n : ℚ) * 100 ∧ (c : ℚ) / (n : ℚ) * 100 ≤ 100 := by
  have hn' : (0 : ℚ) < (n : ℚ) := by exact_mod_cast Nat.pos_of_ne_zero hn
  constructor
  · positivity
  · have h1 : (c : ℚ) / (n : ℚ) ≤ 1 := by
      rw [div_le_one hn']
      exact_mod_cast hc
    calc (c : ℚ) / (n : ℚ) * 100 ≤ 1 * 100 :=
          mul_le_mul_of_nonneg_right h1 (by norm_num)
      _ = 100 := by norm_num

/-- C8: for every group dataset and per-group CQI pass threshold, if no
record has CQI good-rate below the threshold then
`CQI不达标根因分析_按制式` reports an empty cause table and a 0%
failure ratio; otherwise every rule's count is bounded by the failing
count, its percentage equals count over failing count times 100 and
lies in [0, 100], and the failure ratio equals failing count over group
total times 100. -/
theorem «根因分析性质» (thr : ℚ) (ds : Dataset) :
    ((ds.rows.filter (fun r => decide (r.«CQI优良率» < thr))).length = 0 →
      («CQI不达标根因分析» thr ds).«根因统计» = [] ∧
      («CQI不达标根因分析» thr ds).«不达标比例» = 0) ∧
    ((ds.rows.filter (fun r => decide (r.«CQI优良率» < thr))).length ≠ 0 →
      (∀ e ∈ («CQI不达标根因分析» thr ds).«根因统计»,
        e.«小区数» ≤ (ds.rows.filter (fun r => decide (r.«CQI优良率» < thr))).length ∧
        e.«占比» = (e.«小区数» : ℚ) /
            ((ds.rows.filter (fun r => decide (r.«CQI优良率» < thr))).length : ℚ) * 100 ∧
        0 ≤ e.«占比» ∧ e.«占比» ≤ 100) ∧
      («CQI不达标根因分析» thr ds).«不达标比例» =
        ((ds.rows.filter (fun r => decide (r.«CQI优良率» < thr))).length : ℚ) /
          (ds.rows.length : ℚ) * 100) := by
  by_cases h : (ds.rows.filter (fun r => decide (r.«CQI优良率» < thr))).length = 0
  · refine ⟨fun _ => ?_, fun hne => absurd h hne⟩
    constructor <;> simp [«CQI不达标根因分析», h]
  · refine ⟨fun h0 => absurd h0 h, fun _ => ⟨?_, ?_⟩⟩
    · intro e he
      simp only [«CQI不达标根因分析», h, if_false, reduceIte, List.mem_cons,
        List.mem_singleton, List.not_mem_nil, or_false] at he
      have hb := fun (c : ℕ) (hc : c ≤ (ds.rows.filter
        (fun r => decide (r.«CQI优良率» < thr))).length) => pctBounds c _ h hc
      rcases he with rfl | rfl | rfl | rfl | rfl <;>
        refine ⟨?_, rfl, (hb _ ?_).1, (hb _ ?_).2⟩ <;>
        first
          | exact List.length_filter_le _ _
          | (split <;> first | exact List.length_filter_le _ _ | exact Nat.zero_le _)
    · simp [«CQI不达标根因分析», h]

/-- C8 witness: at threshold 85 on a one-row group whose record fails,
the failure ratio is 1/1 × 100 and every rule percentage is within
bounds. -/
theorem «根因分析性质_实例» :
    («CQI不达标根因分析» 85 «C8数据»).«不达标比例» = 100 := by
  have h := («根因分析性质» 85 «C8数据»).2 (by decide)
  rw [h.2]
  norm_num [«C8数据», mkR]

theorem sumMapAddNat {β : Type} (l : List β) (f g : β → ℕ) :
    (l.map (fun q => f q + g q)).sum = (l.map f).sum + (l.map g).sum := by
  induction l with
  | nil => rfl
  | cons q qs ih =>
    simp only [List.map_cons, List.sum_cons, ih]
    omega

theorem «象限归并_count_sum» {β γ : Type} (rows : List Record) (defs : List β)
    (pred : β → Record → Bool) (mk : β → List Record → γ) (cnt : γ → ℕ)
    (hc : ∀ q d, cnt (mk q d) = d.length) :
    ((«象限归并» rows defs pred mk).map cnt).sum =
      (defs.map (fun q => (rows.filter (pred q)).length)).sum := by
  induction defs with
  | nil => rfl
  | cons q qs ih =>
    simp only [«象限归并», List.filterMap_cons] at ih ⊢
    by_cases h : (rows.filter (pred q)).length = 0
    · rw [if_pos h]
      simp only [List.map_cons, List.sum_cons, h, Nat.zero_add]
      exact ih
    · rw [if_neg h]
      simp only [List.map_cons, List.sum_cons, hc, ih]

theorem «象限归并_pct_sum» {β γ : Type} (rows : List Record) (defs : List β)
    (pred : β → Record → Bool) (mk : β → List Record → γ) (pct : γ → ℚ)
    (hp : ∀ q, pct (mk q (rows.filter (pred q))) =
      ((rows.filter (pred q)).length : ℚ) / (rows.length : ℚ) * 100) :
    ((«象限归并» rows defs pred mk).map pct).sum =
      (((defs.map (fun q => (rows.filter (pred q)).length)).sum : ℕ) : ℚ) /
        (rows.length : ℚ) * 100 := by
  induction defs with
  | nil => simp [«象限归并»]
  | cons q qs ih =>
    simp only [«象限归并», List.filterMap_cons] at ih ⊢
    by_cases h : (rows.filter (pred q)).length = 0
    · rw [if_pos h]
      simp only [List.map_cons, List.sum_cons, ih, h]
      push_cast
      ring
    · rw [if_neg h]
      simp only [List.map_cons, List.sum_cons, ih, hp]
      push_cast
      ring

theorem partitionFilterSum {β : Type} (defs : List β) (pred : β → Record → Bool)
    (P : Record → Bool)
    (hone : ∀ r, (defs.map (fun q => if pred q r then 1 else 0)).sum =
      (if P r then 1 else 0)) (rows : List Record) :
    (defs.map (fun q => (rows.filter (pred q)).length)).sum = (rows.filter P).length := by
  induction rows with
  | nil => simp
  | cons r rs ih =>
    have hlen : ∀ q, ((r :: rs).filter (pred q)).length =
        (if pred q r then 1 else 0) + (rs.filter (pred q)).length := by
      intro q
      by_cases hq : pred q r <;> simp [List.filter_cons, hq] <;> omega
    calc (defs.map fun q => ((r :: rs).filter (pred q)).length).sum
        = (defs.map fun q =>
            (if pred q r then 1 else 0) + (rs.filter (pred q)).length).sum := by
          rw [List.map_congr_left (fun q _ => hlen q)]
      _ = (defs.map fun q => if pred q r then 1 else 0).sum +
            (defs.map fun q => (rs.filter (pred q)).length).sum :=
          sumMapAddNat defs _ _
      _ = (if P r then 1 else 0) + (rs.filter P).length := by rw [hone, ih]
      _ = ((r :: rs).filter P).length := by
          by_cases hr : P r <;> simp [List.filter_cons, hr] <;> omega

theorem «四象限谓词_partition» (covThr sinrThr : ℚ) (r : Record) :
    ((«四象限定义» covThr sinrThr).map
      (fun q => if «四象限谓词» q r then 1 else 0)).sum = 1 := by
  simp only [«四象限定义», «四象限谓词», fgtB, fleB, List.map_cons, List.map_nil,
    List.sum_cons, List.sum_nil]
  rcases le_or_lt r.«覆盖电平» covThr with h1 | h1 <;>
    rcases le_or_lt r.SINR sinrThr with h2 | h2
  · simp [h1, h2, not_lt.mpr h1, not_lt.mpr h2]
  · simp [h1, h2, not_lt.mpr h1, not_le.mpr h2]
  · simp [h1, h2, not_le.mpr h1, not_lt.mpr h2]
  · simp [h1, h2, not_le.mpr h1, not_le.mpr h2]

theorem «系数象限谓词_partition» (coefThr levelThr : ℚ) (hc : 0 ≤ coefThr) (r : Record) :
    ((«系数象限定义» coefThr levelThr).map
      (fun q => if «系数象限谓词» q r then 1 else 0)).sum =
      (if ogtQ r.«覆盖系数» 0 then 1 else 0) := by
  cases hv : r.«覆盖系数» with
  | none =>
      simp [«系数象限定义», «系数象限谓词», fgtB, fleB, ogtB, oleB, ogtQ, hv]
  | some x =>
    simp only [«系数象限定义», «系数象限谓词», fgtB, fleB, ogtB, oleB, ogtQ, hv,
      List.map_cons, List.map_nil, List.sum_cons, List.sum_nil]
    rcases le_or_lt x 0 with hx0 | hx0
    · have hxc : ¬ coefThr < x := not_lt.mpr (le_trans hx0 hc)
      simp [not_lt.mpr hx0, hxc]
    · rcases le_or_lt x coefThr with hxc | hxc <;>
        rcases le_or_lt r.«覆盖电平» levelThr with h1 | h1
      · simp [hx0, hxc, not_lt.mpr hxc, not_lt.mpr h1, h1]
      · simp [hx0, hxc, not_lt.mpr hxc, not_le.mpr h1, h1]
      · simp [hx0, hxc, not_le.mpr hxc, not_lt.mpr h1, h1]
      · simp [hx0, hxc, not_le.mpr hxc, not_le.mpr h1, h1]

theorem «四象限分析_eq» (covThr sinrThr : ℚ) (rows : List Record) :
    «四象限分析» covThr sinrThr rows =
      «象限归并» rows («四象限定义» covThr sinrThr) «四象限谓词»
        (fun q d =>
          ⟨q.1, d.length, (d.length : ℚ) / (rows.length : ℚ) * 100,
            meanQ (d.map (fun r => r.«CQI优良率»)), meanQ (d.map (fun r => r.«下行速率»)),
            meanQ (d.map (fun r => r.«覆盖电平»)), meanQ (d.map (fun r => r.SINR))⟩) := rfl

theorem «系数四象限分析_eq» (coefThr levelThr : ℚ) (ds : Dataset)
    (h : ds.«has覆盖系数» = true) :
    «覆盖系数四象限分析» coefThr levelThr ds =
      some («象限归并» ds.rows («系数象限定义» coefThr levelThr) «系数象限谓词»
        (fun q d =>
          ⟨q.1, d.length, (d.length : ℚ) / (ds.rows.length : ℚ) * 100,
            meanQ (d.map (fun r => r.«CQI优良率»)), meanQ (d.map (fun r => r.«下行速率»)),
            meanQ (d.map (fun r => r.«覆盖电平»)), omean (d.map (fun r => r.«覆盖系数»)),
            meanQ (d.map (fun r => r.SINR))⟩)) := by
  rw [«覆盖系数四象限分析», h]
  simp

/-- C3 (amended): the coverage-level × SINR quadrant analysis
(`四象限分析_按制式`) partitions every nonempty group — reported
quadrant counts sum exactly to the group total, percentages to 100 —
with a record exactly at a threshold going to the below-or-equal side;
but in the coverage-factor × coverage-level quadrant analysis
(`覆盖系数四象限分析_按制式`) the coverage-factor lower extreme is 0
rather than −inf, so (for any nonnegative factor threshold) the counts
sum only to the number of records with positive coverage factor, and
the percentages to that number over the group total times 100: records
with coverage factor 0, negative or missing fall into no quadrant. -/
theorem «四象限划分修正» :
    (∀ (covThr sinrThr : ℚ) (rows : List Record), rows ≠ [] →
      ((«四象限分析» covThr sinrThr rows).map (fun x => x.«样本数»)).sum = rows.length ∧
      ((«四象限分析» covThr sinrThr rows).map (fun x => x.«占比»)).sum = 100) ∧
    (∀ (coefThr levelThr : ℚ) (ds : Dataset), 0 ≤ coefThr → ds.«has覆盖系数» = true →
      ((((«覆盖系数四象限分析» coefThr levelThr ds).getD []).map
          (fun x => x.«样本数»)).sum =
        (ds.rows.filter (fun r => ogtQ r.«覆盖系数» 0)).length) ∧
      ((((«覆盖系数四象限分析» coefThr levelThr ds).getD []).map
          (fun x => x.«占比»)).sum =
        ((ds.rows.filter (fun r => ogtQ r.«覆盖系数» 0)).length : ℚ) /
          (ds.rows.length : ℚ) * 100)) := by
  constructor
  · intro covThr sinrThr rows hne
    have hpart := partitionFilterSum («四象限定义» covThr sinrThr) «四象限谓词»
      (fun _ => true) (fun r => by simpa using «四象限谓词_partition» covThr sinrThr r) rows
    have hall : rows.filter (fun _ => true) = rows := List.filter_true rows
    have hcnt := «象限归并_count_sum» rows («四象限定义» covThr sinrThr) «四象限谓词»
      (fun q d =>
        (⟨q.1, d.length, (d.length : ℚ) / (rows.length : ℚ) * 100,
          meanQ (d.map (fun r => r.«CQI优良率»)), meanQ (d.map (fun r => r.«下行速率»)),
          meanQ (d.map (fun r => r.«覆盖电平»)), meanQ (d.map (fun r => r.SINR))⟩ : «象限行»))
      (fun x => x.«样本数») (fun q d => rfl)
    have hpct := «象限归并_pct_sum» rows («四象限定义» covThr sinrThr) «四象限谓词»
      (fun q d =>
        (⟨q.1, d.length, (d.length : ℚ) / (rows.length : ℚ) * 100,
          meanQ (d.map (fun r => r.«CQI优良率»)), meanQ (d.map (fun r => r.«下行速率»)),
          meanQ (d.map (fun r => r.«覆盖电平»)), meanQ (d.map (fun r => r.SINR))⟩ : «象限行»))
      (fun x => x.«占比») (fun q => rfl)
    constructor
    · rw [«四象限分析_eq», hcnt, hpart, hall]
    · rw [«四象限分析_eq», hpct, hpart, hall]
      have hN : ((rows.length : ℕ) : ℚ) ≠ 0 := by
        have := List.length_pos.mpr hne
        positivity
      field_simp
  · intro coefThr levelThr ds hc hflag
    have hpart := partitionFilterSum («系数象限定义» coefThr levelThr) «系数象限谓词»
      (fun r => ogtQ r.«覆盖系数» 0)
      (fun r => «系数象限谓词_partition» coefThr levelThr hc r) ds.rows
    have hcnt := «象限归并_count_sum» ds.rows («系数象限定义» coefThr levelThr) «系数象限谓词»
      (fun q d =>
        (⟨q.1, d.length, (d.length : ℚ) / (ds.rows.length : ℚ) * 100,
          meanQ (d.map (fun r => r.«CQI优良率»)), meanQ (d.map (fun r => r.«下行速率»)),
          meanQ (d.map (fun r => r.«覆盖电平»)), omean (d.map (fun r => r.«覆盖系数»)),
          meanQ (d.map (fun r => r.SINR))⟩ : «系数象限行»))
      (fun x => x.«样本数») (fun q d => rfl)
    have hpct := «象限归并_pct_sum» ds.rows («系数象限定义» coefThr levelThr) «系数象限谓词»
      (fun q d =>
        (⟨q.1, d.length, (d.length : ℚ) / (ds.rows.length : ℚ) * 100,
          meanQ (d.map (fun r => r.«CQI优良率»)), meanQ (d.map (fun r => r.«下行速率»)),
          meanQ (d.map (fun r => r.«覆盖电平»)), omean (d.map (fun r => r.«覆盖系数»)),
          meanQ (d.map (fun r => r.SINR))⟩ : «系数象限行»))
      (fun x => x.«占比») (fun q => rfl)
    rw [«系数四象限分析_eq» coefThr levelThr ds hflag, Option.getD_some]
    constructor
    · rw [hcnt, hpart]
    · rw [hpct, hpart]

/-- C3 witness: at the default thresholds, the one-record group of
`C3数据` has coverage×SINR quadrant counts summing to the group total 1
and percentages summing to 100, while its coverage-factor quadrant
counts sum to the number of records with positive coverage factor,
namely 0. -/
theorem «四象限划分修正_实例» :
    ((«四象限分析» (-90) 15 «C3数据».rows).map (fun x => x.«样本数»)).sum =
      «C3数据».rows.length ∧
    ((«四象限分析» (-90) 15 «C3数据».rows).map (fun x => x.«占比»)).sum = 100 ∧
    ((((«覆盖系数四象限分析» (7/10) (-90) «C3数据»).getD []).map
        (fun x => x.«样本数»)).sum =
      («C3数据».rows.filter (fun r => ogtQ r.«覆盖系数» 0)).length) :=
  ⟨(«四象限划分修正».1 (-90) 15 «C3数据».rows (by decide)).1,
   («四象限划分修正».1 (-90) 15 «C3数据».rows (by decide)).2,
   («四象限划分修正».2 (7/10) (-90) «C3数据» (by norm_num) (by decide)).1⟩

/-- C6 (amended): in `CQI分位数速率分析_按制式`, whenever the lowest
band's downlink mean `b` is nonzero, every band with downlink mean `m`
gets uplift `round₂((m − b)/b × 100)` — in particular the lowest band's
uplift is exactly 0.  When `b` is 0 the code instead propagates the
IEEE division — `NaN` for the lowest band and `±inf` (or `NaN`) for the
others, as `基准为零提升率传播无穷反例` shows — not an
undefined-for-all-bands result. -/
theorem «提升率公式修正» (q : ℕ) (rows : List Record) (t : «分位数结果»)
    (h : «CQI分位数速率分析» q rows = .ok (some t)) (h1 : 1 < t.«行».length)
    (b : ℚ) (hb : (t.«行».headD default).«下行均值» = .fin b) (hb0 : b ≠ 0) :
    (∀ (i : ℕ) (m : ℚ), (t.«行»[i]?).map (fun (row : «分位数行») => row.«下行均值») = some (.fin m) →
      t.«下行提升率»[i]? = some (fround2 (.fin ((m - b) / b * 100)))) ∧
    t.«下行提升率»[0]? = some (.fin 0) := by
  simp only [«CQI分位数速率分析»] at h
  split at h
  · exact absurd (Except.ok.inj h) (by simp)
  · split at h
    · exact absurd h (by simp)
    · split at h
      case isFalse hlen =>
        obtain rfl := (Option.some.inj (Except.ok.inj h)).symm
        exact absurd h1 hlen
      case isTrue hlen =>
        have key : t.«下行提升率» = t.«行».map (fun bb =>
            fround2 (fmul (fdiv (fsub bb.«下行均值» ((t.«行».headD default).«下行均值»))
              ((t.«行».headD default).«下行均值»)) (.fin 100))) := by
          obtain rfl := (Option.some.inj (Except.ok.inj h)).symm
          rfl
        constructor
        · intro i m hm
          rw [key, List.getElem?_map]
          cases hst : t.«行»[i]? with
          | none => rw [hst] at hm; exact absurd hm (by simp)
          | some row =>
            rw [hst] at hm
            simp only [Option.map_some'] at hm ⊢
            have hrm : row.«下行均值» = .fin m := Option.some.inj hm
            rw [hb, hrm]
            simp [fsub, fdiv, fmul, hb0]
        · rcases hs : t.«行» with _ | ⟨hd, tl⟩
          · rw [hs] at h1; simp at h1
          · rw [key, hs]
            rw [hs] at hb
            simp only [List.headD_cons] at hb ⊢
            simp only [List.map_cons, List.getElem?_cons_zero, Option.some.injEq]
            rw [hb]
            simp only [fsub, fdiv, fmul]
            rw [if_neg hb0]
            norm_num [fround2, roundHalfEven]

set_option maxRecDepth 100000 in
unseal List.merge List.mergeSort Rat.add Rat.mul Rat.inv Rat.sub in
/-- C6 witness: on `C6良行` (lowest band downlink mean 3/2 ≠ 0) the
lowest band's uplift is exactly 0. -/
theorem «提升率公式修正_实例» :
    («C6良表».«下行提升率»)[0]? = some (FVal.fin 0) :=
  («提升率公式修正» 5 «C6良行» «C6良表» (by decide) (by decide) (3/2) (by decide)
    (by norm_num)).2

theorem fMaxLt_irrefl (a : FVal) : fMaxLt a a = false := by
  cases a <;> simp [fMaxLt]

theorem fMaxLt_trans {a b c : FVal} (h1 : fMaxLt a b = true) (h2 : fMaxLt b c = true) :
    fMaxLt a c = true := by
  cases a <;> cases b <;> cases c <;> simp_all [fMaxLt] <;> linarith

theorem fMaxLt_not_trans {a b c : FVal} (ha : a ≠ FVal.nan) (hb : b ≠ FVal.nan)
    (hc : c ≠ FVal.nan) (h1 : fMaxLt a b = false) (h2 : fMaxLt b c = false) :
    fMaxLt a c = false := by
  cases a <;> cases b <;> cases c <;> simp_all [fMaxLt] <;> linarith

theorem idxmaxCore_cons_ne (i : ℕ) (best : Option (ℕ × FVal)) (w : FVal)
    (hw : w ≠ FVal.nan) (ws : List FVal) :
    idxmaxCore i best (w :: ws) =
      idxmaxCore (i + 1)
        (some (match best with
          | none => (i, w)
          | some bv => if fMaxLt bv.2 w then (i, w) else bv)) ws := by
  cases w <;> first
    | exact absurd rfl hw
    | (cases best <;> rfl)

theorem idxmaxCore_spec (rest : List FVal) :
    ∀ (i : ℕ) (best : Option (ℕ × FVal)) (full : List FVal),
      (∀ bi bv, best = some (bi, bv) → full[bi]? = some bv ∧ bv ≠ FVal.nan) →
      (∀ j : ℕ, rest[j]? = full[i + j]?) →
      ∀ (k : ℕ) (v' : FVal), idxmaxCore i best rest = some (k, v') →
        full[k]? = some v' ∧ v' ≠ FVal.nan ∧
        (∀ w ∈ rest, w ≠ FVal.nan → fMaxLt v' w = false) ∧
        (∀ bi bv, best = some (bi, bv) → fMaxLt v' bv = false) := by
  induction rest with
  | nil =>
    intro i best full hbest _ k v' hrun
    have hr : best = some (k, v') := hrun
    obtain ⟨hget, hne⟩ := hbest k v' hr
    refine ⟨hget, hne, by simp, ?_⟩
    intro bi bv hb
    have h2 := hr.symm.trans hb
    obtain ⟨rfl, rfl⟩ := Prod.mk.injEq _ _ _ _ ▸ Option.some.inj h2
    exact fMaxLt_irrefl v'
  | cons w ws ih =>
    intro i best full hbest hfull k v' hrun
    have hfull0 : full[i]? = some w := by
      have := hfull 0
      simpa using this.symm
    have hfull' : ∀ j : ℕ, ws[j]? = full[(i + 1) + j]? := by
      intro j
      have := hfull (j + 1)
      simpa [Nat.add_assoc, Nat.add_comm 1 j] using this
    by_cases hw : w = FVal.nan
    · subst hw
      obtain ⟨g1, g2, g3, g4⟩ := ih (i + 1) best full hbest hfull' k v' hrun
      refine ⟨g1, g2, ?_, g4⟩
      intro u hu hune
      rcases List.mem_cons.mp hu with rfl | hu'
      · exact absurd rfl hune
      · exact g3 u hu' hune
    · rw [idxmaxCore_cons_ne i best w hw ws] at hrun
      cases best with
      | none =>
        obtain ⟨g1, g2, g3, g4⟩ := ih (i + 1) (some (i, w)) full
          (by
            intro bi bv hb
            obtain ⟨rfl, rfl⟩ := Prod.mk.injEq _ _ _ _ ▸ Option.some.inj hb
            exact ⟨hfull0, hw⟩)
          hfull' k v' hrun
        have hvw : fMaxLt v' w = false := g4 i w rfl
        refine ⟨g1, g2, ?_, by simp⟩
        intro u hu hune
        rcases List.mem_cons.mp hu with rfl | hu'
        · exact hvw
        · exact g3 u hu' hune
      | some bv =>
        obtain ⟨hbget, hbne⟩ := hbest bv.1 bv.2 rfl
        obtain ⟨g1, g2, g3, g4⟩ := ih (i + 1)
          (some (if fMaxLt bv.2 w then (i, w) else bv)) full
          (by
            intro bi bv' hb
            by_cases hcmp : fMaxLt bv.2 w = true
            · rw [if_pos hcmp] at hb
              obtain ⟨rfl, rfl⟩ := Prod.mk.injEq _ _ _ _ ▸ Option.some.inj hb
              exact ⟨hfull0, hw⟩
            · rw [if_neg hcmp] at hb
              obtain ⟨rfl, rfl⟩ := Prod.mk.injEq _ _ _ _ ▸ Option.some.inj hb
              exact ⟨by simpa using hbget, hbne⟩)
          hfull' k v' hrun
        by_cases hcmp : fMaxLt bv.2 w = true
        · have hvw : fMaxLt v' w = false := by
            have := g4 i w (by rw [if_pos hcmp])
            exact this
          have hvb : fMaxLt v' bv.2 = false := by
            cases hvb : fMaxLt v' bv.2 with
            | false => rfl
            | true => exact absurd (fMaxLt_trans hvb hcmp) (by simp [hvw])
          refine ⟨g1, g2, ?_, ?_⟩
          · intro u hu hune
            rcases List.mem_cons.mp hu with rfl | hu'
            · exact hvw
            · exact g3 u hu' hune
          · intro bi bv' hb
            obtain ⟨rfl, rfl⟩ := Prod.mk.injEq _ _ _ _ ▸ Option.some.inj hb
            exact hvb
        · have hcmp' : fMaxLt bv.2 w = false := by simpa using hcmp
          have hvb : fMaxLt v' bv.2 = false := by
            have := g4 bv.1 bv.2 (by rw [if_neg hcmp])
            exact this
          have hvw : fMaxLt v' w = false :=
            fMaxLt_not_trans g2 hbne hw hvb hcmp'
          refine ⟨g1, g2, ?_, ?_⟩
          · intro u hu hune
            rcases List.mem_cons.mp hu with rfl | hu'
            · exact hvw
            · exact g3 u hu' hune
          · intro bi bv' hb
            obtain ⟨rfl, rfl⟩ := Prod.mk.injEq _ _ _ _ ▸ Option.some.inj hb
            exact hvb

theorem idxmaxF_spec (l : List FVal) (k : ℕ) (h : idxmaxF l = some k) :
    ∃ v, l[k]? = some v ∧ v ≠ FVal.nan ∧
      ∀ w ∈ l, w ≠ FVal.nan → fMaxLt v w = false := by
  unfold idxmaxF at h
  cases hrun : idxmaxCore 0 none l with
  | none => rw [hrun] at h; exact absurd h (by simp)
  | some kv =>
    rw [hrun] at h
    simp only [Option.map_some'] at h
    obtain ⟨g1, g2, g3, _⟩ := idxmaxCore_spec l 0 none l (by simp)
      (by intro j; simp) kv.1 kv.2 hrun
    have hk : kv.1 = k := Option.some.inj h
    exact ⟨kv.2, hk ▸ g1, g2, g3⟩

theorem idxmaxCore_none (rest : List FVal) :
    ∀ (i : ℕ) (best : Option (ℕ × FVal)), idxmaxCore i best rest = none →
      best = none ∧ ∀ w ∈ rest, w = FVal.nan := by
  induction rest with
  | nil =>
    intro i best h
    exact ⟨h, by simp⟩
  | cons w ws ih =>
    intro i best h
    by_cases hw : w = FVal.nan
    · subst hw
      have h' : idxmaxCore (i + 1) best ws = none := h
      obtain ⟨hb, hall⟩ := ih (i + 1) best h'
      refine ⟨hb, ?_⟩
      intro u hu
      rcases List.mem_cons.mp hu with rfl | hu'
      · rfl
      · exact hall u hu'
    · rw [idxmaxCore_cons_ne i best w hw ws] at h
      obtain ⟨hb, _⟩ := ih (i + 1) _ h
      exact absurd hb (by simp)

theorem idxmaxF_none (l : List FVal) (h : idxmaxF l = none) :
    ∀ w ∈ l, w = FVal.nan := by
  unfold idxmaxF at h
  cases hrun : idxmaxCore 0 none l with
  | some kv => rw [hrun] at h; exact absurd h (by simp)
  | none => exact (idxmaxCore_none l 0 none hrun).2

set_option maxRecDepth 100000 in
unseal List.merge List.mergeSort Rat.add Rat.mul Rat.inv Rat.sub in
/-- C9 counterexample: the 15-row group `C9坏行` with 3 bands passes
the row-count guard and has 3 bands, yet `CQI速率拐点分析_按制式` does
not flag a maximum-second-difference band — the middle band is empty,
every second difference is `NaN`, and the uncaught `idxmax`/`.loc`
error is raised instead (source lines 428–429). -/
theorem «全NaN斜率变化抛错反例» :
    «CQI速率拐点分析» 3 «C9坏行» = .error .valueError ∧
    2 < («拐点区间统计» 3 «C9坏行»).length ∧
    ¬ «C9坏行».length < 3 * 5 := by decide

/-- C9 (amended): for every group that `CQI速率拐点分析_按制式`
reports on, when at most two bands exist no inflection band (and no
second-difference column) is reported; with more than two bands the
`斜率变化` column is the second difference of the per-band mean-rate
series and an inflection band is flagged that attains its maximum over
all defined (non-`NaN`) entries; the `显著提升点` set is exactly the
bands whose growth rate exceeds +10% and the `平稳点` set exactly
those below +5% (the growth rate being `pct_change × 100` of the
mean-rate series, `NaN` comparisons false).  But when more than two
bands exist and every second difference is `NaN` — reachable when the
deduplicated quantile edges leave an empty interior band — the
function raises an uncaught error instead of reporting no
inflection. -/
theorem «拐点分析修正» (n : ℕ) (rows : List Record) :
    (∀ t : «拐点结果», «CQI速率拐点分析» n rows = .ok (some t) →
      (t.«区间统计».length ≤ 2 → t.«拐点» = none ∧ t.«斜率变化» = none) ∧
      (2 < t.«区间统计».length →
        t.«斜率变化» =
          some (diffF (diffF (t.«区间统计».map (fun b => b.«平均速率»)))) ∧
        (t.«拐点»).isSome = true ∧
        (∀ k, t.«拐点» = some k →
          ∃ v, (diffF (diffF (t.«区间统计».map (fun b => b.«平均速率»))))[k]? = some v ∧
            v ≠ FVal.nan ∧
            ∀ w ∈ diffF (diffF (t.«区间统计».map (fun b => b.«平均速率»))),
              w ≠ FVal.nan → fMaxLt v w = false)) ∧
      t.«速率增长率» = pctChange100 (t.«区间统计».map (fun b => b.«平均速率»)) ∧
      (∀ i : ℕ, i ∈ t.«显著提升点» ↔
        i < t.«区间统计».length ∧ fgtQ (t.«速率增长率».getD i FVal.nan) 10 = true) ∧
      (∀ i : ℕ, i ∈ t.«平稳点» ↔
        i < t.«区间统计».length ∧ fltQ (t.«速率增长率».getD i FVal.nan) 5 = true)) ∧
    (∀ e : PyErr, «CQI速率拐点分析» n rows = .error e →
      e = .valueError ∧ 2 < («拐点区间统计» n rows).length ∧
      ∀ w ∈ diffF (diffF ((«拐点区间统计» n rows).map (fun b => b.«平均速率»))),
        w = FVal.nan) := by
  constructor
  · intro t h
    simp only [«CQI速率拐点分析»] at h
    split at h
    · exact absurd h (by simp)
    · split at h
      case isTrue hlen =>
        split at h
        · exact absurd h (by simp)
        case h_2 k hk =>
          obtain rfl := (Option.some.inj (Except.ok.inj h)).symm
          refine ⟨?_, ?_, rfl, ?_, ?_⟩
          · intro hle
            exact absurd hlen (not_lt.mpr hle)
          · intro _
            refine ⟨rfl, rfl, ?_⟩
            intro j hj
            have hjk : j = k := Option.some.inj hj.symm
            subst hjk
            exact idxmaxF_spec _ j hk
          · intro i
            simp [List.mem_filter, List.mem_range]
          · intro i
            simp [List.mem_filter, List.mem_range]
      case isFalse hlen =>
        obtain rfl := (Option.some.inj (Except.ok.inj h)).symm
        refine ⟨fun _ => ⟨rfl, rfl⟩, ?_, rfl, ?_, ?_⟩
        · intro hgt
          exact absurd hgt hlen
        · intro i
          simp [List.mem_filter, List.mem_range]
        · intro i
          simp [List.mem_filter, List.mem_range]
  · intro e h
    simp only [«CQI速率拐点分析»] at h
    split at h
    · exact absurd h (by simp)
    · split at h
      case isTrue hlen =>
        split at h
        case h_1 hnone =>
          refine ⟨(Except.error.inj h).symm, hlen, ?_⟩
          exact idxmaxF_none _ hnone
        · exact absurd h (by simp)
      case isFalse hlen =>
        exact absurd h (by simp)

set_option maxRecDepth 100000 in
unseal List.merge List.mergeSort Rat.add Rat.mul Rat.inv Rat.sub in
/-- C9 witness: on the 15-row group `C9行` with 3 bands (second
difference `[NaN, NaN, 7]`), the reported `斜率变化` column equals the
second difference of the mean-rate series and the flagged inflection
band is index 2. -/
theorem «拐点分析修正_实例» :
    «C9表».«斜率变化» =
      some (diffF (diffF («C9表».«区间统计».map (fun b => b.«平均速率»)))) ∧
    «C9表».«拐点» = some 2 := by
  refine ⟨((((«拐点分析修正» 3 «C9行»).1 «C9表» (by decide)).2.1 (by decide)).1), by decide⟩

theorem descLe_trans {α : Type} (key : α → ℚ) :
    ∀ a b c : ℕ × α, descLe key a b → descLe key b c → descLe key a c := by
  intro a b c h1 h2
  simp only [descLe, Bool.or_eq_true, Bool.and_eq_true, decide_eq_true_eq] at *
  rcases h1 with h1 | ⟨h1e, h1i⟩ <;> rcases h2 with h2 | ⟨h2e, h2i⟩
  · exact Or.inl (lt_trans h2 h1)
  · exact Or.inl (h2e ▸ h1)
  · exact Or.inl (h1e.symm ▸ h2)
  · exact Or.inr ⟨h1e.trans h2e, le_trans h1i h2i⟩

theorem descLe_total {α : Type} (key : α → ℚ) :
    ∀ a b : ℕ × α, descLe key a b || descLe key b a := by
  intro a b
  simp only [descLe, Bool.or_eq_true, Bool.and_eq_true, decide_eq_true_eq]
  rcases lt_trichotomy (key a.2) (key b.2) with h | h | h
  · exact Or.inr (Or.inl h)
  · rcases le_total a.1 b.1 with hi | hi
    · exact Or.inl (Or.inr ⟨h, hi⟩)
    · exact Or.inr (Or.inr ⟨h.symm, hi⟩)
  · exact Or.inl (Or.inl h)

theorem pySortDescBy_perm {α : Type} (key : α → ℚ) (l : List α) :
    (pySortDescBy key l).Perm l := by
  unfold pySortDescBy
  have h1 := (List.mergeSort_perm l.enum (descLe key)).map Prod.snd
  rwa [List.enum_map_snd] at h1

theorem pySortDescBy_sorted {α : Type} (key : α → ℚ) (l : List α) :
    (pySortDescBy key l).Pairwise (fun a b => key b ≤ key a) := by
  unfold pySortDescBy
  have hs := List.sorted_mergeSort (descLe_trans key) (descLe_total key) l.enum
  refine hs.map Prod.snd ?_
  intro a b hab
  simp only [descLe, Bool.or_eq_true, Bool.and_eq_true, decide_eq_true_eq] at hab
  rcases hab with h | ⟨h, _⟩
  · exact le_of_lt h
  · exact le_of_eq h.symm

theorem pySortDescBy_stable {α : Type} (key : α → ℚ) (l : List α) (c : ℚ) :
    (pySortDescBy key l).filter (fun x => decide (key x = c)) =
      l.filter (fun x => decide (key x = c)) := by
  unfold pySortDescBy
  have hperm : (l.enum.mergeSort (descLe key)).Perm l.enum := List.mergeSort_perm _ _
  have hsorted := List.sorted_mergeSort (descLe_trans key) (descLe_total key) l.enum
  have hpf : ((l.enum.mergeSort (descLe key)).filter
        ((fun x => decide (key x = c)) ∘ Prod.snd)).Perm
      (l.enum.filter ((fun x => decide (key x = c)) ∘ Prod.snd)) :=
    hperm.filter _
  have hnodup : ((l.enum.mergeSort (descLe key)).filter
      ((fun x => decide (key x = c)) ∘ Prod.snd)).Pairwise (fun a b => a.1 ≠ b.1) := by
    have h1 : (l.enum.map Prod.fst).Nodup := by
      rw [List.enum_map_fst]
      exact List.nodup_range _
    have h2 : ((l.enum.mergeSort (descLe key)).map Prod.fst).Nodup :=
      ((hperm.map Prod.fst).nodup_iff).mpr h1
    exact (List.pairwise_map.mp h2).filter _
  have hstrict1 : ((l.enum.mergeSort (descLe key)).filter
      ((fun x => decide (key x = c)) ∘ Prod.snd)).Pairwise (fun a b => a.1 < b.1) := by
    have hand := (hsorted.filter ((fun x => decide (key x = c)) ∘ Prod.snd)).and hnodup
    refine List.Pairwise.imp_of_mem ?_ hand
    intro a b ha hb hr
    obtain ⟨hle, hne⟩ := hr
    have hpa : key a.2 = c := by simpa using List.of_mem_filter ha
    have hpb : key b.2 = c := by simpa using List.of_mem_filter hb
    simp only [descLe, Bool.or_eq_true, Bool.and_eq_true, decide_eq_true_eq] at hle
    rcases hle with h | ⟨_, hii⟩
    · rw [hpa, hpb] at h
      exact absurd h (lt_irrefl c)
    · exact lt_of_le_of_ne hii hne
  have hstrict2 : (l.enum.filter
      ((fun x => decide (key x = c)) ∘ Prod.snd)).Pairwise (fun a b => a.1 < b.1) := by
    have h1 : (l.enum.map Prod.fst).Pairwise (· < ·) := by
      rw [List.enum_map_fst]
      exact List.pairwise_lt_range _
    exact (List.pairwise_map.mp h1).filter _
  haveI : IsAntisymm (ℕ × α) (fun a b => a.1 < b.1) :=
    ⟨fun a b h1 h2 => absurd (h1.trans h2) (lt_irrefl _)⟩
  have heq := List.eq_of_perm_of_sorted hpf hstrict1 hstrict2
  have hL := congrArg (List.map Prod.snd) heq
  rw [← List.filter_map, ← List.filter_map, List.enum_map_snd] at hL
  exact hL

theorem «累积标注_保持核心» (total : ℚ) :
    ∀ (l : List «贡献条目») (acc : ℚ),
      ((«累积标注» total acc l).map (fun x => (x.«指标», x.«相关系数», x.«贡献度»))) =
        l.map (fun x => (x.«指标», x.«相关系数», x.«贡献度»)) := by
  intro l
  induction l with
  | nil => intro acc; rfl
  | cons x xs ih =>
    intro acc
    simp only [«累积标注», List.map_cons, ih]

theorem «累积标注_保持贡献度» (total : ℚ) :
    ∀ (l : List «贡献条目») (acc : ℚ),
      ((«累积标注» total acc l).map (fun x => x.«贡献度»)) =
        l.map (fun x => x.«贡献度») := by
  intro l
  induction l with
  | nil => intro acc; rfl
  | cons x xs ih =>
    intro acc
    simp only [«累积标注», List.map_cons, ih]

theorem «累积标注_链» (total : ℚ) :
    ∀ (l : List «贡献条目») (acc : ℚ), (∀ x ∈ l, 0 ≤ x.«贡献度») →
      ((«累积标注» total acc l).map (fun x => x.«累积贡献度»)).Chain' (· ≤ ·) := by
  intro l
  induction l with
  | nil => intro acc _; simp [«累积标注»]
  | cons x xs ih =>
    intro acc hpos
    cases xs with
    | nil => simp [«累积标注»]
    | cons y ys =>
      rw [show «累积标注» total acc (x :: y :: ys) =
        { x with «累积贡献度» :=
            if 0 < total then (acc + x.«贡献度») / total * 100 else 0 } ::
          «累积标注» total (acc + x.«贡献度») (y :: ys) from rfl]
      rw [show «累积标注» total (acc + x.«贡献度») (y :: ys) =
        { y with «累积贡献度» :=
            if 0 < total then (acc + x.«贡献度» + y.«贡献度») / total * 100 else 0 } ::
          «累积标注» total (acc + x.«贡献度» + y.«贡献度») ys from rfl]
      rw [List.map_cons, List.map_cons, List.chain'_cons]
      constructor
      · by_cases ht : 0 < total
      
        · simp only [ht, if_true]
          have hy : 0 ≤ y.«贡献度» := hpos y (by simp)
          have : acc + x.«贡献度» ≤ acc + x.«贡献度» + y.«贡献度» := by linarith
          have h1 : (acc + x.«贡献度») / total ≤ (acc + x.«贡献度» + y.«贡献度») / total := by
            gcongr
          exact mul_le_mul_of_nonneg_right h1 (by norm_num)
        · simp [ht]
      · have := ih (acc + x.«贡献度») (fun z hz => hpos z (List.mem_cons_of_mem x hz))
        rw [show «累积标注» total (acc + x.«贡献度») (y :: ys) =
          { y with «累积贡献度» :=
              if 0 < total then (acc + x.«贡献度» + y.«贡献度») / total * 100 else 0 } ::
            «累积标注» total (acc + x.«贡献度» + y.«贡献度») ys from rfl] at this
        rw [List.map_cons] at this
        exact this

theorem getLastCons {α : Type} (a : α) (l : List α) (h : l ≠ []) :
    (a :: l).getLast? = l.getLast? := by
  cases l with
  | nil => exact absurd rfl h
  | cons b bs => exact List.getLast?_cons_cons

theorem «累积标注_末项» (total : ℚ) :
    ∀ (l : List «贡献条目») (acc : ℚ), l ≠ [] →
      ((«累积标注» total acc l).map (fun x => x.«累积贡献度»)).getLast? =
        some (if 0 < total then
          (acc + (l.map (fun x => x.«贡献度»)).sum) / total * 100 else 0) := by
  intro l
  induction l with
  | nil => intro acc h; exact absurd rfl h
  | cons x xs ih =>
    intro acc _
    cases xs with
    | nil =>
      simp [«累积标注»]
    | cons y ys =>
      rw [show «累积标注» total acc (x :: y :: ys) =
        { x with «累积贡献度» :=
            if 0 < total then (acc + x.«贡献度») / total * 100 else 0 } ::
          «累积标注» total (acc + x.«贡献度») (y :: ys) from rfl]
      rw [List.map_cons]
      have hne2 : («累积标注» total (acc + x.«贡献度») (y :: ys)).map
          (fun x => x.«累积贡献度») ≠ [] := by
        rw [show «累积标注» total (acc + x.«贡献度») (y :: ys) =
          { y with «累积贡献度» :=
              if 0 < total then (acc + x.«贡献度» + y.«贡献度») / total * 100 else 0 } ::
            «累积标注» total (acc + x.«贡献度» + y.«贡献度») ys from rfl]
        simp
      rw [getLastCons _ _ hne2]
      rw [ih (acc + x.«贡献度») (by simp)]
      congr 1
      by_cases ht : 0 < total
      · simp only [ht, if_true, List.map_cons, List.sum_cons]
        ring
      · simp [ht]

/-- C4 (amended): for every group dataset and any `pearsonr` behaviour,
the ranked list of `贡献度分析_按制式` contains exactly the entries
with positive (defined) contribution — zero or undefined contributions
are excluded — as a permutation of the filtered list; it is ordered
non-increasingly by contribution, ties broken by original input order
(the sort is stable: the subsequence at any fixed contribution value is
preserved); the cumulative percentage is non-decreasing and ends at
100 when the list is nonempty.  The per-entry contribution percentages
`|r| × 100` sum to `总贡献度`, not to 100, as the counterexample
shows. -/
theorem «贡献度排行修正» (pearson : Pearson) (ds : Dataset) :
    (∀ x ∈ («贡献度分析» pearson ds).1, 0 < x.«贡献度») ∧
    ((«贡献度分析» pearson ds).1.map
        (fun x => (x.«指标», x.«相关系数», x.«贡献度»))).Perm
      ((«贡献度过滤列表» pearson ds).map
        (fun x => (x.«指标», x.«相关系数», x.«贡献度»))) ∧
    ((«贡献度分析» pearson ds).1.map (fun x => x.«贡献度»)).Pairwise
      (fun a b => b ≤ a) ∧
    (∀ c : ℚ, («贡献度排序列表» pearson ds).filter (fun x => decide (x.«贡献度» = c)) =
      («贡献度过滤列表» pearson ds).filter (fun x => decide (x.«贡献度» = c))) ∧
    ((«贡献度分析» pearson ds).1.map (fun x => x.«累积贡献度»)).Chain' (· ≤ ·) ∧
    ((«贡献度分析» pearson ds).1 ≠ [] →
      ((«贡献度分析» pearson ds).1.map (fun x => x.«累积贡献度»)).getLast? =
        some 100) := by
  have hval : («贡献度分析» pearson ds).1 =
      «累积标注» (((«贡献度排序列表» pearson ds).map (fun x => x.«贡献度»)).sum) 0
        («贡献度排序列表» pearson ds) := rfl
  have hsortedlist : «贡献度排序列表» pearson ds =
      pySortDescBy (fun x => x.«贡献度») («贡献度过滤列表» pearson ds) := rfl
  have hperm : («贡献度排序列表» pearson ds).Perm («贡献度过滤列表» pearson ds) := by
    rw [hsortedlist]
    exact pySortDescBy_perm _ _
  have hposSorted : ∀ x ∈ «贡献度排序列表» pearson ds, 0 < x.«贡献度» := by
    intro x hx
    have hx' : x ∈ «贡献度过滤列表» pearson ds := hperm.mem_iff.mp hx
    have := List.of_mem_filter hx'
    simpa using this
  refine ⟨?_, ?_, ?_, ?_, ?_, ?_⟩
  · intro x hx
    rw [hval] at hx
    have hxc := List.mem_map_of_mem (fun x => x.«贡献度») hx
    rw [«累积标注_保持贡献度»] at hxc
    obtain ⟨y, hy, hyx⟩ := List.mem_map.mp hxc
    have hpos := hposSorted y hy
    rw [hyx] at hpos
    exact hpos
  · rw [hval, «累积标注_保持核心»]
    exact hperm.map _
  · rw [hval, «累积标注_保持贡献度», hsortedlist]
    exact List.pairwise_map.mpr (pySortDescBy_sorted _ _)
  · intro c
    rw [hsortedlist]
    exact pySortDescBy_stable _ _ c
  · rw [hval]
    exact «累积标注_链» _ _ 0 (fun x hx => le_of_lt (hposSorted x hx))
  · intro hne
    rw [hval] at hne ⊢
    have hsne : «贡献度排序列表» pearson ds ≠ [] := by
      intro h0
      apply hne
      rw [h0]
      rfl
    have hTpos : 0 < ((«贡献度排序列表» pearson ds).map (fun x => x.«贡献度»)).sum := by
      apply List.sum_pos
      · intro q hq
        obtain ⟨y, hy, rfl⟩ := List.mem_map.mp hq
        exact hposSorted y hy
      · simpa using hsne
    rw [«累积标注_末项» _ _ 0 hsne, if_pos hTpos, zero_add,
      div_self (ne_of_gt hTpos), one_mul]

set_option maxRecDepth 100000 in
unseal List.merge List.mergeSort Rat.add Rat.mul Rat.inv Rat.sub in
/-- C4 witness: at `C4数据` the ranked list is nonempty and its
cumulative percentage column ends at exactly 100. -/
theorem «贡献度排行修正_实例» :
    ((«贡献度分析» pearsonQ «C4数据»).1.map
      (fun x => x.«累积贡献度»)).getLast? = some 100 :=
  («贡献度排行修正» pearsonQ «C4数据»).2.2.2.2.2 (by decide)
